import Mathlib

/-!
Verification of the transformation-candidate pipeline of the
multi-agent-data-wrangler repository, as a shallow embedding in Lean 4.

Conventions used throughout:
* Python dicts are embedded as insertion-ordered association lists
  (`List (key × value)`); Python sets whose iteration order is never
  observed are embedded as duplicate-free lists.
* Python floats that only ever flow through arithmetic and comparisons are
  embedded as rationals (`ℚ`).
* Code that can raise is embedded as `Except String α`, the carried string
  being the exception message.
* pandas / pydantic library internals are external collaborators of the
  core (spec §1); they appear as abstract function parameters, while every
  branch of the repository's own code is translated faithfully.
-/

namespace DW

/-- `src/common/types/transformation.py`: `TransformationType(str, Enum)`. -/
inductive TransformationType where
  | fill_missing
  | normalize
  | encode_categorical
  | remove_outliers
  | drop_duplicates
  | cast_type
deriving DecidableEq

/-- The `.value` string of each enum member. -/
def TransformationType.value : TransformationType → String
  | .fill_missing => "fill_missing"
  | .normalize => "normalize"
  | .encode_categorical => "encode_categorical"
  | .remove_outliers => "remove_outliers"
  | .drop_duplicates => "drop_duplicates"
  | .cast_type => "cast_type"

/-- A parameter value stored in `Transformation.params`
(the repository only ever stores strings and numbers there). -/
inductive ParamValue where
  | str (s : String)
  | num (q : ℚ)
deriving DecidableEq

/-- `Transformation.params`: a Python dict of named parameters. -/
def Params := List (String × ParamValue)

instance : DecidableEq Params := by
  unfold Params
  infer_instance

/-- `params.get(key)` -/
def Params.get (p : Params) (k : String) : Option ParamValue :=
  (List.find? (fun q => q.1 = k) p).map Prod.snd

/-- `params.get(key, default)` -/
def Params.getD (p : Params) (k : String) (d : ParamValue) : ParamValue :=
  (Params.get p k).getD d

/-- `src/common/types/transformation.py`: `Transformation` (pydantic model). -/
structure Transformation where
  id : String
  type : TransformationType
  target_columns : List String
  params : Params
  reversible : Bool
  description : String
deriving DecidableEq

/-! ## Transformation DAG (`src/transformation/dag.py`)

`TransformationDAG` keeps `_nodes : dict[str, Transformation]` and
`_dependencies : dict[str, set[str]]` with identical, insertion-ordered key
sets, plus the cached `_execution_order : list[str]`.  The transformation
payloads are only ever looked up by id when a sort result is returned, so
the embedding tracks the ids; `deps` is the `_dependencies` dict (its value
sets are embedded as duplicate-free lists, their iteration order is never
observed by the algorithm). -/

structure TransformationDAG where
  deps : List (String × List String)
  execOrder : List String
deriving DecidableEq

/-- The insertion-ordered key set shared by `_nodes` and `_dependencies`. -/
def TransformationDAG.keys (d : TransformationDAG) : List String :=
  d.deps.map Prod.fst

/-- `self._dependencies[n]` (empty for a missing key, which the source never
queries). -/
def TransformationDAG.depsOf (d : TransformationDAG) (n : String) : List String :=
  ((List.find? (fun p => p.1 = n) d.deps).map Prod.snd).getD []

/-- `TransformationDAG.__init__` -/
def TransformationDAG.empty : TransformationDAG := ⟨[], []⟩

/-- `add_transformation` (dag.py:19-29): insert the id (re-assignment of an
existing dict key keeps its position), reset its dependency set, and clear
the cached execution order. -/
def TransformationDAG.add_transformation (d : TransformationDAG) (tid : String) :
    TransformationDAG :=
  { deps :=
      if d.keys.contains tid then
        d.deps.map (fun p => if p.1 = tid then (tid, []) else p)
      else
        d.deps ++ [(tid, [])],
    execOrder := [] }

/-- `add_dependency` (dag.py:31-48): `ValueError` if either id is missing,
otherwise add `depends_on_id` to the dependent's set.  The cached execution
order is left untouched (only `add_transformation` clears it). -/
def TransformationDAG.add_dependency (d : TransformationDAG)
    (tid depends_on : String) : Except String TransformationDAG :=
  if ¬ d.keys.contains tid then
    .error ("Transformation " ++ tid ++ " not found in DAG")
  else if ¬ d.keys.contains depends_on then
    .error ("Transformation " ++ depends_on ++ " not found in DAG")
  else
    .ok { d with
      deps := d.deps.map (fun p =>
        if p.1 = tid then
          (p.1, if p.2.contains depends_on then p.2 else p.2 ++ [depends_on])
        else p) }

/-- dag.py:63-68: `in_degree[n]` = the number of dependencies of `n` that are
themselves nodes. -/
def initInDegree (d : TransformationDAG) : List (String × Int) :=
  d.deps.map (fun p => (p.1, ((p.2.filter (fun b => d.keys.contains b)).length : Int)))

/-- One pass of dag.py:81-85 after popping `cur`: walk the dependency dict in
key order; every node that depends on `cur` has its in-degree decremented and
is appended to the queue when the decremented value reaches zero.  Returns
the updated in-degree table and the nodes enqueued, in table order. -/
def kahnUpdate (dl : String → List String) (cur : String) :
    List (String × Int) → List (String × Int) × List String
  | [] => ([], [])
  | (n, k) :: tl =>
    let r := kahnUpdate dl cur tl
    if (dl n).contains cur then
      ((n, k - 1) :: r.1, if k - 1 = 0 then n :: r.2 else r.2)
    else
      ((n, k) :: r.1, r.2)

/-- The `while queue:` loop of dag.py:76-85 (`queue.pop(0)` pops the front,
enqueued nodes are appended at the back).  The loop always terminates; the
structural fuel makes that explicit, and `kahnFuel` below is proved
sufficient, so the `none` branch is never reached from `topological_sort`. -/
def kahnLoop (dl : String → List String) :
    Nat → List (String × Int) → List String → List String → Option (List String)
  | 0, _, _, _ => none
  | _ + 1, _, [], order => some order
  | fuel + 1, inDeg, cur :: rest, order =>
    let r := kahnUpdate dl cur inDeg
    kahnLoop dl fuel r.1 (rest ++ r.2) (order ++ [cur])

/-- Sum of the positive in-degrees: the loop's termination measure together
with the queue length. -/
def degSum (inDeg : List (String × Int)) : Nat :=
  (inDeg.map (fun p => p.2.toNat)).sum

/-- Fuel sufficient for `kahnLoop` (one unit per loop iteration plus one). -/
def kahnFuel (inDeg : List (String × Int)) (queue : List String) : Nat :=
  queue.length + degSum inDeg + 1

/-- `topological_sort` (dag.py:50-91).  Returns the result together with the
post-call object state: the method returns the cached `_execution_order`
whenever it is non-empty, otherwise runs Kahn's algorithm, stores whatever
order it produced (also when it then raises `ValueError` on a cycle), and
raises iff not all nodes were consumed. -/
def TransformationDAG.topological_sort (d : TransformationDAG) :
    Except String (List String) × TransformationDAG :=
  if d.execOrder ≠ [] then
    (.ok d.execOrder, d)
  else
    let inDeg := initInDegree d
    let queue := (inDeg.filter (fun p => p.2 = 0)).map Prod.fst
    let order := (kahnLoop d.depsOf (kahnFuel inDeg queue) inDeg queue []).getD []
    let d2 := { d with execOrder := order }
    if order.length ≠ d.keys.length then
      (.error "Circular dependency detected in transformation DAG", d2)
    else
      (.ok order, d2)

/-- Well-formedness maintained by every `TransformationDAG` operation:
keys are distinct (dict keys) and each dependency list is duplicate-free
(it embeds a `set`). -/
structure TransformationDAG.WF (d : TransformationDAG) : Prop where
  keysNodup : d.keys.Nodup
  depsNodup : ∀ p ∈ d.deps, p.2.Nodup

/-- The dependency edge relation of the graph: `edge d a b` holds when `a`
depends on `b` and both are nodes. -/
def TransformationDAG.edge (d : TransformationDAG) (a b : String) : Prop :=
  b ∈ d.depsOf a ∧ a ∈ d.keys ∧ b ∈ d.keys

/-- The dependency set is acyclic: no node reaches itself through a non-empty
chain of dependency edges. -/
def TransformationDAG.Acyclic (d : TransformationDAG) : Prop :=
  ∀ n, ¬ Relation.TransGen d.edge n n

/-- `in_degree[n]` as the algorithm reads it: the value at the first (unique)
entry for `n`, `0` when absent. -/
def lookupDeg (inDeg : List (String × Int)) (n : String) : Int :=
  ((List.find? (fun p => p.1 = n) inDeg).map Prod.snd).getD 0

/-- Loop invariant of Kahn's algorithm in `topological_sort`, over the
dependency lookup `dl`, the key list `K`, and the loop state
(in-degree table, queue, emitted order). -/
structure KInv (dl : String → List String) (K : List String)
    (inDeg : List (String × Int)) (queue order : List String) : Prop where
  keysEq : inDeg.map Prod.fst = K
  degEq : ∀ n ∈ K, lookupDeg inDeg n =
    (((dl n).filter (fun b => K.contains b && !(order.contains b))).length : Int)
  nodupAll : (order ++ queue).Nodup
  orderSub : ∀ a ∈ order, a ∈ K
  queueSub : ∀ a ∈ queue, a ∈ K
  zeroDone : ∀ n ∈ K, lookupDeg inDeg n = 0 → n ∈ order ∨ n ∈ queue
  queueReady : ∀ n ∈ queue, ∀ b ∈ dl n, b ∈ K → b ∈ order
  orderClosed : ∀ a ∈ order, ∀ b ∈ dl a, b ∈ K → b ∈ order
  orderSorted : order.Pairwise (fun x y => ¬(y ∈ dl x ∧ y ∈ K))

/-- The cyclic example graph for the caching bug: `A` and `B` depend on each
other, `C` is independent.  Built below (see `dag_cycle_reachable`) by
`add_transformation` of A, B, C followed by `add_dependency` A→B and B→A. -/
def dagCyc : TransformationDAG := ⟨[("A", ["B"]), ("B", ["A"]), ("C", [])], []⟩

/-- Acyclic two-node example graph used for the stale-cache counterexample:
nodes `A`, `B` (in that insertion order) and no edges yet. -/
def dagAB : TransformationDAG :=
  (TransformationDAG.empty.add_transformation "A").add_transformation "B"

/-- The three nodes of `dagCyc` before any edge is added. -/
def dagCycBase : TransformationDAG :=
  ((TransformationDAG.empty.add_transformation "A").add_transformation
    "B").add_transformation "C"

/-- `dagAB` after a completed sort (cached order `["A", "B"]`) followed by
`add_dependency "A" "B"` (A depends on B): the new edge is recorded but the
stale cached order survives. -/
def dagABstale : TransformationDAG := ⟨[("A", ["B"]), ("B", [])], ["A", "B"]⟩

/-- The acyclic graph `A depends on B` with an empty cache. -/
def dagABdep : TransformationDAG := ⟨[("A", ["B"]), ("B", [])], []⟩

/-! ## Dataset model

A pandas `DataFrame` is embedded as a column-name list plus a row-major cell
grid; a cell is a value (number or string) or missing (`NaN`/`None`). -/

/-- A non-missing cell value. -/
inductive Value where
  | num (q : ℚ)
  | str (s : String)
deriving DecidableEq

/-- A cell: a value or missing. -/
def Cell := Option Value

instance : DecidableEq Cell := by
  unfold Cell
  infer_instance

structure DataFrame where
  cols : List String
  rows : List (List Cell)
deriving DecidableEq

/-- `df.empty`: true iff any axis has length zero. -/
def DataFrame.isEmpty (df : DataFrame) : Prop :=
  df.rows = [] ∨ df.cols = []

instance (df : DataFrame) : Decidable df.isEmpty := by
  unfold DataFrame.isEmpty
  infer_instance

/-- `df.size` = number of rows × number of columns. -/
def DataFrame.size (df : DataFrame) : Nat :=
  df.rows.length * df.cols.length

/-- `df.count().sum()` = number of non-null cells. -/
def DataFrame.nonNullCount (df : DataFrame) : Nat :=
  (df.rows.map (fun r => (r.filter (fun c => c.isSome)).length)).sum

/-! ## Data profile (`src/common/types/data_profile.py`) -/

/-- `ColumnProfile` (pydantic model). -/
structure ColumnProfile where
  name : String
  dtype : String
  null_count : Nat
  null_percentage : ℚ
  unique_count : Option Nat
  min_value : Option ℚ
  max_value : Option ℚ
  mean : Option ℚ
  std : Option ℚ
  inferred_type : String
deriving DecidableEq

/-- `DataProfile` (pydantic model); the `timestamp` is kept as its ISO
serialization, which is all the core ever does with it. -/
structure DataProfile where
  timestamp : String
  row_count : Nat
  column_count : Nat
  columns : List (String × ColumnProfile)
  overall_missing_percentage : ℚ
  duplicate_rows : Nat
deriving DecidableEq

/-! ## Transform appliers and the executor
(`src/transformation/executor.py`, `src/transformation/transformations/`)

The appliers' internal pandas computations are external collaborators
(spec §1); their `apply`/`reverse` value semantics enter as abstract
functions.  The three `reverse` methods whose bodies are a single
unconditional `raise NotImplementedError` (fill_missing.py:105-122,
remove_outliers.py:96-108, drop_duplicates.py:35-47) are translated
concretely. -/

structure ApplierOps where
  fillMissingApply : Transformation → DataFrame → Except String DataFrame
  normalizeApply : Transformation → DataFrame → Except String DataFrame
  normalizeReverse : Transformation → DataFrame → Except String DataFrame
  encodeApply : Transformation → DataFrame → Except String DataFrame
  encodeReverse : Transformation → DataFrame → Except String DataFrame
  removeOutliersApply : Transformation → DataFrame → Except String DataFrame
  dropDuplicatesApply : Transformation → DataFrame → Except String DataFrame
  castTypeApply : Transformation → DataFrame → Except String DataFrame
  castTypeReverse : Transformation → DataFrame → Except String DataFrame

/-- `FillMissingTransformation.reverse` (fill_missing.py:105-122): an
unconditional `NotImplementedError`. -/
def fillMissingReverse (_t : Transformation) (_data : DataFrame) :
    Except String DataFrame :=
  .error ("Cannot reverse fill_missing transformation as " ++
    "original missing value positions are not preserved.")

/-- `RemoveOutliersTransformation.reverse` (remove_outliers.py:96-108). -/
def removeOutliersReverse (_t : Transformation) (_data : DataFrame) :
    Except String DataFrame :=
  .error ("Cannot reverse remove_outliers transformation as " ++
    "rows have been permanently removed.")

/-- `DropDuplicatesTransformation.reverse` (drop_duplicates.py:35-47). -/
def dropDuplicatesReverse (_t : Transformation) (_data : DataFrame) :
    Except String DataFrame :=
  .error ("Cannot reverse drop_duplicates transformation as " ++
    "duplicate rows have been permanently removed.")

/-- The `_transformation_registry` dispatch (executor.py:24-31) on the
`apply` side.  `TransformationType` is a closed enum whose six members are
all registered, so `registry.get` never misses (the "Unknown transformation
type" branch at executor.py:53-54 is unreachable). -/
def registryApply (ops : ApplierOps) :
    TransformationType → Transformation → DataFrame → Except String DataFrame
  | .fill_missing => ops.fillMissingApply
  | .normalize => ops.normalizeApply
  | .encode_categorical => ops.encodeApply
  | .remove_outliers => ops.removeOutliersApply
  | .drop_duplicates => ops.dropDuplicatesApply
  | .cast_type => ops.castTypeApply

/-- The registry dispatch on the `reverse` side. -/
def registryReverse (ops : ApplierOps) :
    TransformationType → Transformation → DataFrame → Except String DataFrame
  | .fill_missing => fillMissingReverse
  | .normalize => ops.normalizeReverse
  | .encode_categorical => ops.encodeReverse
  | .remove_outliers => removeOutliersReverse
  | .drop_duplicates => dropDuplicatesReverse
  | .cast_type => ops.castTypeReverse

/-- `TransformationResult` (the wall-clock `execution_time_ms` is modelled
as 0: no claim constrains it). -/
structure TransformationResult where
  transformation : Transformation
  success : Bool
  output_data : DataFrame
  error_message : Option String
  execution_time_ms : ℚ
deriving DecidableEq

/-- The executor's `_transformation_instances` store (executor.py:32-33):
which transformation was stored under which id. -/
structure TransformationExecutor where
  instances : List (String × Transformation)
deriving DecidableEq

/-- `TransformationExecutor.execute` (executor.py:35-83): dispatch by type,
apply; on success wrap the output and store the transformer instance; the
`except Exception` arm turns any applier failure into a result carrying
`success=False`, the original data object, and the exception message. -/
def TransformationExecutor.execute (ex : TransformationExecutor)
    (ops : ApplierOps) (data : DataFrame) (t : Transformation) :
    TransformationResult × TransformationExecutor :=
  match registryApply ops t.type t data with
  | .ok out =>
    ({ transformation := t, success := true, output_data := out,
       error_message := none, execution_time_ms := 0 },
     ⟨(t.id, t) :: ex.instances⟩)
  | .error e =>
    ({ transformation := t, success := false, output_data := data,
       error_message := some e, execution_time_ms := 0 },
     ex)

/-- `TransformationExecutor.reverse` (executor.py:85-119): fail with "is not
reversible" iff the transformation's `reversible` flag is false, then
dispatch to the stored (or a fresh) applier instance — with the appliers'
value semantics abstract, both paths run the same `reverse` function, and
the unknown-type branch (executor.py:113-114) is unreachable for the closed
enum. -/
def TransformationExecutor.reverse (_ex : TransformationExecutor)
    (ops : ApplierOps) (data : DataFrame) (t : Transformation) :
    Except String DataFrame :=
  if ¬ t.reversible then
    .error ("Transformation " ++ t.type.value ++ " is not reversible")
  else
    registryReverse ops t.type t data

/-! ## Reversibility classifier (`src/transformation/reversibility.py`) -/

/-- `ReversibilityChecker._check_conditional_reversibility`
(reversibility.py:48-66). -/
def ReversibilityChecker.check_conditional (t : Transformation) : Bool :=
  if t.type = TransformationType.fill_missing then
    Params.getD t.params "strategy" (ParamValue.str "") = ParamValue.str "constant"
  else
    t.reversible

/-- `ReversibilityChecker.is_reversible` (reversibility.py:27-46). -/
def ReversibilityChecker.is_reversible (t : Transformation) : Bool :=
  if t.type = TransformationType.normalize ∨
      t.type = TransformationType.encode_categorical ∨
      t.type = TransformationType.cast_type then
    true
  else if t.type = TransformationType.remove_outliers ∨
      t.type = TransformationType.drop_duplicates then
    false
  else if t.type = TransformationType.fill_missing then
    ReversibilityChecker.check_conditional t
  else
    t.reversible

/-! ## Candidate generator (`src/transformation/candidate_generator.py`)

`uuid.uuid4()` draws fresh identifiers from the environment; the embedding
threads an id source `uid : Nat → String` with a running counter through the
sub-generators, numbering candidates in creation order. -/

/-- Fold a per-column candidate maker over the profile's column dict,
threading the id counter. -/
def genFold (f : String → ColumnProfile → Nat → List Transformation × Nat) :
    List (String × ColumnProfile) → Nat → List Transformation × Nat
  | [], k => ([], k)
  | (c, cp) :: tl, k =>
    let r1 := f c cp k
    let r2 := genFold f tl r1.2
    (r1.1 ++ r2.1, r2.2)

/-- The fill-missing candidates for one column
(candidate_generator.py:51-99). -/
def fillMissingForColumn (uid : Nat → String) (col_name : String)
    (cp : ColumnProfile) (k : Nat) : List Transformation × Nat :=
  if cp.null_count > 0 then
    let r1 : List Transformation × Nat :=
      if cp.inferred_type = "numeric" then
        let rm : List Transformation × Nat :=
          match cp.mean with
          | some _ =>
            ([{ id := uid k, type := TransformationType.fill_missing,
                target_columns := [col_name],
                params := [("strategy", ParamValue.str "mean")],
                reversible := true,
                description := "Fill missing values in " ++ col_name ++ " with mean" }],
             k + 1)
          | none => ([], k)
        (rm.1 ++
          [{ id := uid rm.2, type := TransformationType.fill_missing,
             target_columns := [col_name],
             params := [("strategy", ParamValue.str "median")],
             reversible := true,
             description := "Fill missing values in " ++ col_name ++ " with median" }],
         rm.2 + 1)
      else if cp.inferred_type = "categorical" then
        ([{ id := uid k, type := TransformationType.fill_missing,
            target_columns := [col_name],
            params := [("strategy", ParamValue.str "mode")],
            reversible := true,
            description := "Fill missing values in " ++ col_name ++ " with mode" }],
         k + 1)
      else ([], k)
    (r1.1 ++
      [{ id := uid r1.2, type := TransformationType.fill_missing,
         target_columns := [col_name],
         params := [("strategy", ParamValue.str "constant"),
                    ("fill_value", ParamValue.num 0)],
         reversible := true,
         description := "Fill missing values in " ++ col_name ++ " with constant" }],
     r1.2 + 1)
  else ([], k)

/-- `_generate_fill_missing_candidates` (candidate_generator.py:45-101). -/
def generate_fill_missing_candidates (uid : Nat → String)
    (profile : DataProfile) (k : Nat) : List Transformation × Nat :=
  genFold (fillMissingForColumn uid) profile.columns k

/-- The normalize candidates for one column
(candidate_generator.py:109-134). -/
def normalizeForColumn (uid : Nat → String) (col_name : String)
    (cp : ColumnProfile) (k : Nat) : List Transformation × Nat :=
  if cp.inferred_type = "numeric" then
    let r1 : List Transformation × Nat :=
      ([{ id := uid k, type := TransformationType.normalize,
          target_columns := [col_name],
          params := [("method", ParamValue.str "standard")],
          reversible := true,
          description := "Standard normalize " ++ col_name ++ " (z-score)" }],
       k + 1)
    match cp.min_value, cp.max_value with
    | some _, some _ =>
      (r1.1 ++
        [{ id := uid r1.2, type := TransformationType.normalize,
           target_columns := [col_name],
           params := [("method", ParamValue.str "minmax")],
           reversible := true,
           description := "Min-max normalize " ++ col_name }],
       r1.2 + 1)
    | _, _ => r1
  else ([], k)

/-- `_generate_normalize_candidates` (candidate_generator.py:103-136). -/
def generate_normalize_candidates (uid : Nat → String)
    (profile : DataProfile) (k : Nat) : List Transformation × Nat :=
  genFold (normalizeForColumn uid) profile.columns k

/-- The categorical-encoding candidates for one column
(candidate_generator.py:144-168). -/
def encodeForColumn (uid : Nat → String) (col_name : String)
    (cp : ColumnProfile) (k : Nat) : List Transformation × Nat :=
  if cp.inferred_type = "categorical" then
    ([{ id := uid k, type := TransformationType.encode_categorical,
        target_columns := [col_name],
        params := [("method", ParamValue.str "onehot")],
        reversible := false,
        description := "One-hot encode " ++ col_name },
      { id := uid (k + 1), type := TransformationType.encode_categorical,
        target_columns := [col_name],
        params := [("method", ParamValue.str "label")],
        reversible := true,
        description := "Label encode " ++ col_name }],
     k + 2)
  else ([], k)

/-- `_generate_encode_categorical_candidates`
(candidate_generator.py:138-170). -/
def generate_encode_categorical_candidates (uid : Nat → String)
    (profile : DataProfile) (k : Nat) : List Transformation × Nat :=
  genFold (encodeForColumn uid) profile.columns k

/-- The outlier-removal candidates for one column
(candidate_generator.py:178-202). -/
def removeOutliersForColumn (uid : Nat → String) (col_name : String)
    (cp : ColumnProfile) (k : Nat) : List Transformation × Nat :=
  if cp.inferred_type = "numeric" ∧ cp.std.isSome then
    ([{ id := uid k, type := TransformationType.remove_outliers,
        target_columns := [col_name],
        params := [("method", ParamValue.str "iqr"),
                   ("threshold", ParamValue.num (3 / 2))],
        reversible := false,
        description := "Remove outliers from " ++ col_name ++ " using IQR" },
      { id := uid (k + 1), type := TransformationType.remove_outliers,
        target_columns := [col_name],
        params := [("method", ParamValue.str "zscore"),
                   ("threshold", ParamValue.num 3)],
        reversible := false,
        description := "Remove outliers from " ++ col_name ++ " using z-score" }],
     k + 2)
  else ([], k)

/-- `_generate_remove_outliers_candidates`
(candidate_generator.py:172-204). -/
def generate_remove_outliers_candidates (uid : Nat → String)
    (profile : DataProfile) (k : Nat) : List Transformation × Nat :=
  genFold (removeOutliersForColumn uid) profile.columns k

/-- `_create_drop_duplicates_candidate` (candidate_generator.py:206-215). -/
def create_drop_duplicates_candidate (uid : Nat → String) (k : Nat) :
    Transformation :=
  { id := uid k, type := TransformationType.drop_duplicates,
    target_columns := [], params := [], reversible := false,
    description := "Remove duplicate rows" }

/-- The cast-type candidates for one column
(candidate_generator.py:223-248). -/
def castTypeForColumn (uid : Nat → String) (col_name : String)
    (cp : ColumnProfile) (k : Nat) : List Transformation × Nat :=
  let r1 : List Transformation × Nat :=
    if cp.inferred_type = "text" then
      ([{ id := uid k, type := TransformationType.cast_type,
          target_columns := [col_name],
          params := [("target_type", ParamValue.str "datetime")],
          reversible := true,
          description := "Cast " ++ col_name ++ " to datetime" }],
       k + 1)
    else ([], k)
  if cp.inferred_type = "text" ∧ cp.null_count = 0 then
    (r1.1 ++
      [{ id := uid r1.2, type := TransformationType.cast_type,
         target_columns := [col_name],
         params := [("target_type", ParamValue.str "numeric")],
         reversible := true,
         description := "Cast " ++ col_name ++ " to numeric" }],
     r1.2 + 1)
  else r1

/-- `_generate_cast_type_candidates` (candidate_generator.py:217-250). -/
def generate_cast_type_candidates (uid : Nat → String)
    (profile : DataProfile) (k : Nat) : List Transformation × Nat :=
  genFold (castTypeForColumn uid) profile.columns k

/-- `CandidateGenerator.generate_candidates`
(candidate_generator.py:13-43). -/
def generate_candidates (uid : Nat → String) (profile : DataProfile) :
    List Transformation :=
  let r1 := generate_fill_missing_candidates uid profile 0
  let r2 := generate_normalize_candidates uid profile r1.2
  let r3 := generate_encode_categorical_candidates uid profile r2.2
  let r4 := generate_remove_outliers_candidates uid profile r3.2
  let r5 : List Transformation × Nat :=
    if profile.duplicate_rows > 0 then
      ([create_drop_duplicates_candidate uid r4.2], r4.2 + 1)
    else ([], r4.2)
  let r6 := generate_cast_type_candidates uid profile r5.2
  r1.1 ++ r2.1 ++ r3.1 ++ r4.1 ++ r5.1 ++ r6.1

/-! ## Validation / quality / ranking data model
(`src/common/types/validation.py`, `quality.py`, `ranking.py`) -/

/-- `ValidationIssue`; `severity` is the source's
`Literal["error", "warning", "info"]`. -/
structure ValidationIssue where
  severity : String
  code : String
  message : String
  column : Option String
deriving DecidableEq

structure ValidationResult where
  passed : Bool
  issues : List ValidationIssue
  original_row_count : Nat
  transformed_row_count : Nat
  schema_compatible : Bool
deriving DecidableEq

structure QualityMetrics where
  completeness : ℚ
  consistency : ℚ
  validity : ℚ
  uniqueness : ℚ
  overall : ℚ
deriving DecidableEq

structure QualityDelta where
  before : QualityMetrics
  after : QualityMetrics
  improvement : QualityMetrics
  composite_delta : ℚ
deriving DecidableEq

structure TransformationCandidate where
  transformation : Transformation
  validation_result : ValidationResult
  quality_before : QualityMetrics
  quality_after : QualityMetrics
  quality_delta : QualityDelta
deriving DecidableEq

structure RankedTransformation where
  rank : Nat
  candidate : TransformationCandidate
  composite_score : ℚ
  reasoning : String
deriving DecidableEq

/-! ## Ranker (`src/ranking/ranker.py`, `scorer.py`)

The scoring policy is pluggable (`src/ranking/interfaces.py`); it enters the
embedding as an abstract pair of functions. -/

/-- The `RankingPolicy` protocol: `score` and `get_reasoning`. -/
structure RankingPolicy where
  score : TransformationCandidate → ℚ
  get_reasoning : TransformationCandidate → ℚ → String

/-- `Scorer.score_with_reasoning` (scorer.py:53-66). -/
def score_with_reasoning (policy : RankingPolicy)
    (c : TransformationCandidate) : ℚ × String :=
  (policy.score c, policy.get_reasoning c (policy.score c))

/-- `RankingService.rank` (ranker.py:25-64).  The service's `_scorer` is
`None` until a policy is attached (`policy?`).  Python's in-place
`list.sort(key=..., reverse=True)` is a stable descending sort, embedded as
the stable `mergeSort` under the reversed comparison; `enumerate(_, start=1)`
assigns the 1-based ranks in sorted order. -/
def RankingService.rank (policy? : Option RankingPolicy)
    (candidates : List TransformationCandidate) :
    Except String (List RankedTransformation) :=
  match policy? with
  | none => .error "No ranking policy set. Use set_policy() first."
  | some policy =>
    if candidates = [] then .ok []
    else
      let scored := candidates.map (fun c => (c, score_with_reasoning policy c))
      let sorted := scored.mergeSort (fun x y => decide (y.2.1 ≤ x.2.1))
      .ok ((sorted.enumFrom 1).map (fun p =>
        { rank := p.1, candidate := p.2.1, composite_score := p.2.2.1,
          reasoning := p.2.2.2 }))

/-! ## Concrete witness material -/

/-- An applier-semantics bundle in which every external pandas computation
fails with "boom". -/
def opsFail : ApplierOps :=
  ⟨fun _ _ => .error "boom", fun _ _ => .error "boom", fun _ _ => .error "boom",
   fun _ _ => .error "boom", fun _ _ => .error "boom", fun _ _ => .error "boom",
   fun _ _ => .error "boom", fun _ _ => .error "boom", fun _ _ => .error "boom"⟩

/-- The empty dataset. -/
def dfEmpty : DataFrame := ⟨[], []⟩

/-- A concrete mean-fill transformation (as the generator would shape it). -/
def tMeanFill : Transformation :=
  { id := "t1", type := TransformationType.fill_missing,
    target_columns := ["age"],
    params := [("strategy", ParamValue.str "mean")], reversible := true,
    description := "Fill missing values in age with mean" }

/-- A deterministic id source standing in for `uuid.uuid4()`. -/
def uidDefault (n : Nat) : String := "id" ++ toString n

/-- A single numeric column `age` with nulls and a known mean. -/
def cpAge : ColumnProfile :=
  { name := "age", dtype := "float64", null_count := 2, null_percentage := 1 / 5,
    unique_count := some 7, min_value := none, max_value := none,
    mean := some 5, std := none, inferred_type := "numeric" }

/-- A one-column profile driving the generator in the witnesses. -/
def profileAge : DataProfile :=
  { timestamp := "2024-01-01T00:00:00", row_count := 10, column_count := 1,
    columns := [("age", cpAge)], overall_missing_percentage := 1 / 5,
    duplicate_rows := 0 }

/-- The mean-fill candidate `generate_candidates uidDefault profileAge`
produces first. -/
def tGenMean : Transformation :=
  { id := "id0", type := TransformationType.fill_missing,
    target_columns := ["age"],
    params := [("strategy", ParamValue.str "mean")], reversible := true,
    description := "Fill missing values in age with mean" }

/-- Flat quality metrics used in concrete candidates. -/
def qmZero : QualityMetrics :=
  { completeness := 1, consistency := 1, validity := 1, uniqueness := 1,
    overall := 1 }

/-- A passing validation result with no issues. -/
def vrPass : ValidationResult :=
  { passed := true, issues := [], original_row_count := 10,
    transformed_row_count := 10, schema_compatible := true }

/-- A concrete candidate wrapping `tMeanFill`. -/
def cand1 : TransformationCandidate :=
  { transformation := tMeanFill, validation_result := vrPass,
    quality_before := qmZero, quality_after := qmZero,
    quality_delta :=
      { before := qmZero, after := qmZero, improvement := qmZero,
        composite_delta := 0 } }

/-- A policy scoring every candidate 0 with a fixed reasoning string. -/
def pZero : RankingPolicy := ⟨fun _ => 0, fun _ _ => "flat"⟩

/-! ## Pipeline state persistence (`src/common/types/pipeline.py`,
`src/orchestrator/state_manager.py`) -/

/-- The step enum `PipelineStep(str, Enum)` (pipeline.py:11-19). -/
inductive PipelineStep where
  | PROFILING
  | GENERATION
  | VALIDATION
  | EXECUTION
  | SCORING
  | RANKING
deriving DecidableEq

/-- The enum member's string `value`. -/
def PipelineStep.value : PipelineStep → String
  | .PROFILING => "profiling"
  | .GENERATION => "generation"
  | .VALIDATION => "validation"
  | .EXECUTION => "execution"
  | .SCORING => "scoring"
  | .RANKING => "ranking"

/-- The enum call `PipelineStep(s)`: looks a member up by value; `none`
stands for the `ValueError` Python raises on an unknown value. -/
def PipelineStep.ofValue (s : String) : Option PipelineStep :=
  if s = "profiling" then some .PROFILING
  else if s = "generation" then some .GENERATION
  else if s = "validation" then some .VALIDATION
  else if s = "execution" then some .EXECUTION
  else if s = "scoring" then some .SCORING
  else if s = "ranking" then some .RANKING
  else none

/-- `PipelineState` (pipeline.py:22-30). -/
structure PipelineState where
  current_step : PipelineStep
  completed_steps : List PipelineStep
  data_profile : Option DataProfile
  candidates : List TransformationCandidate
  ranked_transformations : List RankedTransformation
  error : Option String
deriving DecidableEq

/-- The JSON document `save_state` writes (the `state_dict`,
state_manager.py:37-45); the pydantic payloads stay as the opaque strings
`model_dump_json` produced. -/
structure StateDoc where
  current_step : String
  completed_steps : List String
  data_profile : Option String
  candidates : List String
  ranked_transformations : List String
  error : Option String
  saved_at : String
deriving DecidableEq

/-- The pydantic serializers `model_dump_json` / `model_validate_json` for
the three payload models are external library code; they enter the
embedding as an abstract codec, `none` standing for the `ValidationError`
that `model_validate_json` raises on a bad payload. -/
structure PydanticCodec where
  profDump : DataProfile → String
  profValidate : String → Option DataProfile
  candDump : TransformationCandidate → String
  candValidate : String → Option TransformationCandidate
  rankedDump : RankedTransformation → String
  rankedValidate : String → Option RankedTransformation

/-- The pydantic contract on the payloads a given state actually holds:
validating a dump recovers the model, and no model dumps to the empty
(falsy) string — `model_dump_json` output always starts with a brace. -/
structure PydanticCodec.RoundTripOn (cd : PydanticCodec)
    (state : PipelineState) : Prop where
  prof : ∀ p, state.data_profile = some p →
    cd.profValidate (cd.profDump p) = some p
  profNonempty : ∀ p, state.data_profile = some p → cd.profDump p ≠ ""
  cand : ∀ c ∈ state.candidates,
    cd.candValidate (cd.candDump c) = some c
  ranked : ∀ r ∈ state.ranked_transformations,
    cd.rankedValidate (cd.rankedDump r) = some r

/-- The `StateManager`'s state directory, as the map from file name to the
JSON document stored in that file. -/
structure StateManager where
  files : List (String × StateDoc)
deriving DecidableEq

/-- `open(state_file, "w")` / `json.dump`: overwrite the file if it exists,
create it otherwise. -/
def StateManager.writeFile (sm : StateManager) (fname : String)
    (doc : StateDoc) : StateManager :=
  if (sm.files.map Prod.fst).contains fname then
    ⟨sm.files.map (fun p => if p.1 = fname then (fname, doc) else p)⟩
  else
    ⟨sm.files ++ [(fname, doc)]⟩

/-- `state_file.exists()` / `json.load`: the stored document, if any. -/
def StateManager.readFile (sm : StateManager) (fname : String) :
    Option StateDoc :=
  (sm.files.find? (fun p => p.1 = fname)).map Prod.snd

/-- The `state_dict` that `save_state` builds (state_manager.py:37-45);
`now` stands for `datetime.now().isoformat()`. -/
def encodeState (cd : PydanticCodec) (state : PipelineState)
    (now : String) : StateDoc :=
  { current_step := state.current_step.value,
    completed_steps := state.completed_steps.map PipelineStep.value,
    data_profile := state.data_profile.map cd.profDump,
    candidates := state.candidates.map cd.candDump,
    ranked_transformations :=
      state.ranked_transformations.map cd.rankedDump,
    error := state.error,
    saved_at := now }

/-- `StateManager.save_state` (state_manager.py:25-51): dump the state
dict into the file `f"{name}_state.json"`. -/
def StateManager.save_state (cd : PydanticCodec) (sm : StateManager)
    (state : PipelineState) (name now : String) : StateManager :=
  sm.writeFile (name ++ "_state.json") (encodeState cd state now)

/-- The state reconstruction inside `load_state`
(state_manager.py:75-83).  A failed decode is the exception the source
lets propagate (`ValueError` from the `PipelineStep` call,
`ValidationError` from pydantic).  The source guard
`if state_dict.get("data_profile")` is Python truthiness, so the empty
string also yields no profile. -/
def decodeStateDoc (cd : PydanticCodec) (doc : StateDoc) :
    Except String PipelineState :=
  match PipelineStep.ofValue doc.current_step with
  | none => .error "ValueError: invalid PipelineStep value"
  | some cur =>
    match doc.completed_steps.mapM PipelineStep.ofValue with
    | none => .error "ValueError: invalid PipelineStep value"
    | some completed =>
      match
        (match doc.data_profile with
         | none => some none
         | some s =>
           if s = "" then some none
           else (cd.profValidate s).map some) with
      | none => .error "ValidationError: data_profile"
      | some profile =>
        match doc.candidates.mapM cd.candValidate with
        | none => .error "ValidationError: candidates"
        | some cands =>
          match doc.ranked_transformations.mapM cd.rankedValidate with
          | none => .error "ValidationError: ranked_transformations"
          | some ranked =>
            .ok { current_step := cur,
                  completed_steps := completed,
                  data_profile := profile,
                  candidates := cands,
                  ranked_transformations := ranked,
                  error := doc.error }

/-- `StateManager.load_state` (state_manager.py:53-85): `.ok none` for a
missing file, otherwise the reconstructed state. -/
def StateManager.load_state (cd : PydanticCodec) (sm : StateManager)
    (name : String) : Except String (Option PipelineState) :=
  match sm.readFile (name ++ "_state.json") with
  | none => .ok none
  | some doc => (decodeStateDoc cd doc).map some

/-- A codec for the round-trip witness: it round-trips exactly on the
payloads of `stateWitness` below. -/
def cdWitness : PydanticCodec :=
  { profDump := fun _ => "p",
    profValidate := fun s => if s = "p" then some profileAge else none,
    candDump := fun _ => "c",
    candValidate := fun s => if s = "c" then some cand1 else none,
    rankedDump := fun _ => "r",
    rankedValidate := fun _ => none }

/-- A concrete pipeline state exercising every field. -/
def stateWitness : PipelineState :=
  { current_step := .RANKING,
    completed_steps := [.PROFILING, .GENERATION, .VALIDATION],
    data_profile := some profileAge,
    candidates := [cand1],
    ranked_transformations := [],
    error := some "boom" }

/-- A state manager with an empty state directory. -/
def smEmpty : StateManager := ⟨[]⟩

/-! ## Completeness metric (`src/quality_scoring/metrics/completeness.py`,
`base.py`) -/

/-- A rectangular frame: every row has one cell per column (what a real
pandas frame guarantees). -/
def DataFrame.Rect (df : DataFrame) : Prop :=
  ∀ r ∈ df.rows, r.length = df.cols.length

instance (df : DataFrame) : Decidable df.Rect := by
  unfold DataFrame.Rect
  infer_instance

/-- `BaseMetric._clamp_score` (base.py:29-31). -/
def clamp_score (q : ℚ) : ℚ := max 0 (min 1 q)

/-- `data.sample(n=k, random_state=42)` is external pandas code; it enters
the embedding as an abstract sampler.  Admissibility captures what pandas
guarantees: the columns are unchanged and the result is `k` of the input's
rows, drawn without replacement. -/
structure SampleAdmissible (sampler : DataFrame → Nat → DataFrame) :
    Prop where
  cols : ∀ df k, (sampler df k).cols = df.cols
  len : ∀ df k, k ≤ df.rows.length → (sampler df k).rows.length = k
  sub : ∀ df k, (sampler df k).rows.Subperm df.rows

/-- `CompletenessMetric.calculate` (completeness.py:17-53):
1.0 on an empty frame; for more than `LARGE_DATASET_SAMPLE = 50000` rows
the cell counts are taken on a `min(10000, total_rows)`-row sample instead
of the full frame; the ratio is clamped into [0, 1]. -/
def CompletenessMetric.calculate (sampler : DataFrame → Nat → DataFrame)
    (data : DataFrame) : ℚ :=
  if data.isEmpty then 1
  else
    let src :=
      if data.rows.length > 50000 then
        sampler data (min 10000 data.rows.length)
      else data
    if src.size = 0 then 1
    else clamp_score ((src.nonNullCount : ℚ) / (src.size : ℚ))

/-- The completeness value the spec describes: non-null cell count over
total cell count, 1.0 on an empty dataset.  (Spec-side definition, for
comparison with the code-side `CompletenessMetric.calculate`.) -/
def specCompleteness (data : DataFrame) : ℚ :=
  if data.isEmpty then 1
  else if data.size = 0 then 1
  else (data.nonNullCount : ℚ) / (data.size : ℚ)

/-- A deterministic admissible sampler: keep the first `k` rows. -/
def samplerTake (df : DataFrame) (k : Nat) : DataFrame :=
  ⟨df.cols, df.rows.take k⟩

/-- 50001 rows in one column, with a single missing cell in the last
row. -/
def dfBig : DataFrame :=
  ⟨["c"], List.replicate 50000 [some (Value.num 1)] ++ [[none]]⟩

/-- A small rectangular frame with one missing cell out of four. -/
def dfWit : DataFrame :=
  ⟨["a", "b"],
   [[some (Value.num 1), none],
    [some (Value.num 2), some (Value.str "x")]]⟩

/-! ## Leakage detector (`src/validation/leakage_detector.py`,
`src/validation/validator.py`)

A pandas row tuple is a row; a Python set of row tuples is the
deduplicated row list. -/

/-- `LeakageDetector.__init__` stores the configured threshold
(leakage_detector.py:13-20). -/
structure LeakageDetector where
  threshold : ℚ

/-- The `overlap_ratio` of `check_exact_row_leakage`
(leakage_detector.py:45-47): distinct transformed rows also present among
the distinct original rows, over the number of distinct transformed
rows. -/
def overlapFrac (original transformed : DataFrame) : ℚ :=
  ((original.rows.dedup.inter transformed.rows.dedup).length : ℚ) /
    (transformed.rows.dedup.length : ℚ)

/-- `LeakageDetector.check_exact_row_leakage`
(leakage_detector.py:22-56).  The comparison is against the literal
`0.5`, and `self.threshold` is never read. -/
def LeakageDetector.check_exact_row_leakage (_ld : LeakageDetector)
    (original transformed : DataFrame) : Bool :=
  if original.isEmpty ∨ transformed.isEmpty then false
  else if original.rows.dedup ≠ [] ∧ transformed.rows.dedup ≠ [] then
    if overlapFrac original transformed > 1/2 ∧
        original.rows.length = transformed.rows.length then
      true
    else false
  else false

/-- `LeakageDetector.check_leakage` (leakage_detector.py:160-196).  The
categorical-encoding and numeric-distribution checkers never produce
`EXACT_ROW_LEAKAGE` issues; they enter as abstract functions, and are
skipped when no profile is given, as in the source. -/
def LeakageDetector.check_leakage (ld : LeakageDetector)
    (catCheck numCheck :
      DataFrame → DataFrame → DataProfile → List ValidationIssue)
    (original transformed : DataFrame) (profile? : Option DataProfile) :
    Bool × List ValidationIssue :=
  let detected := ld.check_exact_row_leakage original transformed
  let base : List ValidationIssue :=
    if detected then
      [{ severity := "error", code := "EXACT_ROW_LEAKAGE",
         message := "Transformed data contains exact copies of original rows",
         column := none }]
    else []
  match profile? with
  | none => (detected, base)
  | some profile =>
    (detected, base ++ catCheck original transformed profile ++
      numCheck original transformed profile)

/-- `ValidationService.__init__` (validator.py:15-29) wires the detector
with the `leakage_threshold` constructor argument. -/
def ValidationService.leakage_detector (leakage_threshold : ℚ) :
    LeakageDetector :=
  ⟨leakage_threshold⟩

/-- The default `leakage_threshold = 0.1` of `ValidationService.__init__`
(and of `LeakageDetector.__init__`). -/
def defaultLeakageThreshold : ℚ := 1/10

/-- A one-column row holding the string `s`. -/
def rowStr (s : String) : List Cell := [some (Value.str s)]

/-- Ten distinct original rows. -/
def dfOrig10 : DataFrame :=
  ⟨["c"], [rowStr "a0", rowStr "a1", rowStr "a2", rowStr "a3",
    rowStr "a4", rowStr "a5", rowStr "a6", rowStr "a7", rowStr "a8",
    rowStr "a9"]⟩

/-- Ten distinct transformed rows, three of them identical to original
rows: the overlap ratio is 3/10. -/
def dfTrans10 : DataFrame :=
  ⟨["c"], [rowStr "a0", rowStr "a1", rowStr "a2", rowStr "b3",
    rowStr "b4", rowStr "b5", rowStr "b6", rowStr "b7", rowStr "b8",
    rowStr "b9"]⟩

/-! ## Pipeline orchestration (`src/orchestrator/pipeline_manager.py`)

The coordinator's agents (`src/orchestrator/agent_coordinator.py`) wrap
external collaborators; they enter the embedding as abstract effectful
calls, `.error` standing for a raised exception. -/

structure AgentCoordinator where
  profiler : DataFrame → Except String DataProfile
  transformation : DataProfile → Except String (List Transformation)
  execution : DataFrame → Transformation →
    Except String TransformationResult
  validation : DataFrame → DataFrame → DataProfile →
    Except String ValidationResult
  quality_scoring : DataFrame → DataProfile → Except String QualityMetrics
  compare : QualityMetrics → QualityMetrics → QualityDelta
  ranking : List TransformationCandidate →
    Except String (List RankedTransformation)

/-- `PipelineResult` (orchestrator/interfaces.py); the wall-clock
`execution_time_seconds` is not modelled (no claim constrains it). -/
structure PipelineResult where
  success : Bool
  data : Option DataFrame
  profile : Option DataProfile
  ranked_transformations : List RankedTransformation
  error : Option String
deriving DecidableEq

/-- The fresh state `run` starts from (pipeline_manager.py:57-60). -/
def initPipelineState : PipelineState :=
  { current_step := .PROFILING, completed_steps := [],
    data_profile := none, candidates := [],
    ranked_transformations := [], error := none }

/-- The state `run`'s `except` arm checkpoints: the state at the time of
the exception with `error` set (pipeline_manager.py:105-108). -/
def errState (s : PipelineState) (e : String) : PipelineState :=
  { s with error := some e }

/-- The failure `PipelineResult` of `run`'s `except` arm
(pipeline_manager.py:109-113). -/
def failRes (e : String) : PipelineResult :=
  { success := false, data := none, profile := none,
    ranked_transformations := [], error := some e }

/-- The success `PipelineResult` (pipeline_manager.py:97-103). -/
def okRes (fd : DataFrame) (s : PipelineState) : PipelineResult :=
  { success := true, data := some fd, profile := s.data_profile,
    ranked_transformations := s.ranked_transformations, error := none }

/-- `PipelineManager._execute_profiling` (pipeline_manager.py:157-167). -/
def PipelineManager.execute_profiling (co : AgentCoordinator)
    (data : DataFrame) (state : PipelineState) :
    Except String PipelineState :=
  match co.profiler data with
  | .error e => .error e
  | .ok profile =>
    .ok { state with
          data_profile := some profile,
          current_step := .GENERATION,
          completed_steps := state.completed_steps ++ [.PROFILING] }

/-- `PipelineManager._execute_candidate_generation`
(pipeline_manager.py:169-180): the generated list is discarded — only the
step bookkeeping changes. -/
def PipelineManager.execute_candidate_generation (co : AgentCoordinator)
    (state : PipelineState) : Except String PipelineState :=
  match state.data_profile with
  | none => .error "Data profile is required for candidate generation"
  | some profile =>
    match co.transformation profile with
    | .error e => .error e
    | .ok _ =>
      .ok { state with
            current_step := .VALIDATION,
            completed_steps := state.completed_steps ++ [.GENERATION] }

/-- The per-candidate loop body of
`PipelineManager._execute_validation_and_scoring`
(pipeline_manager.py:194-232): `continue` — `none` — on a failed
execution, a failed validation, or any exception raised in the block. -/
def processCandidate (co : AgentCoordinator) (data : DataFrame)
    (profile : DataProfile) (t : Transformation) :
    Option TransformationCandidate :=
  match co.execution data t with
  | .error _ => none
  | .ok result =>
    if ¬ result.success then none
    else
      match co.validation data result.output_data profile with
      | .error _ => none
      | .ok validation_result =>
        if ¬ validation_result.passed then none
        else
          match co.quality_scoring data profile with
          | .error _ => none
          | .ok quality_before =>
            match co.quality_scoring result.output_data profile with
            | .error _ => none
            | .ok quality_after =>
              some { transformation := t,
                     validation_result := validation_result,
                     quality_before := quality_before,
                     quality_after := quality_after,
                     quality_delta :=
                       co.compare quality_before quality_after }

/-- `PipelineManager._execute_validation_and_scoring`
(pipeline_manager.py:182-239). -/
def PipelineManager.execute_validation_and_scoring (co : AgentCoordinator)
    (data : DataFrame) (state : PipelineState) :
    Except String PipelineState :=
  match state.data_profile with
  | none => .error "Data profile is required for validation"
  | some profile =>
    match co.transformation profile with
    | .error e => .error e
    | .ok transformations =>
      .ok { state with
            candidates :=
              transformations.filterMap (processCandidate co data profile),
            current_step := .RANKING,
            completed_steps := state.completed_steps ++ [.VALIDATION] }

/-- `PipelineManager._execute_ranking` (pipeline_manager.py:241-253): with
no candidates it returns early — `RANKING` is not appended and
`current_step` is untouched. -/
def PipelineManager.execute_ranking (co : AgentCoordinator)
    (state : PipelineState) : Except String PipelineState :=
  if state.candidates = [] then
    .ok { state with ranked_transformations := [] }
  else
    match co.ranking state.candidates with
    | .error e => .error e
    | .ok ranked =>
      .ok { state with
            ranked_transformations := ranked,
            completed_steps := state.completed_steps ++ [.RANKING] }

/-- The final-data block of `run` (pipeline_manager.py:85-93): re-execute
the best ranked transformation if it passed validation. -/
def finalData (co : AgentCoordinator) (data : DataFrame)
    (state : PipelineState) : Except String DataFrame :=
  match state.ranked_transformations with
  | [] => .ok data
  | best :: _ =>
    if best.candidate.validation_result.passed then
      match co.execution data best.candidate.transformation with
      | .error e => .error e
      | .ok result =>
        .ok (if result.success then result.output_data else data)
    else .ok data

/-- `PipelineManager.run` (pipeline_manager.py:39-113).  The second
component is the list of snapshots `_save_checkpoint` wrote, in order;
`er` is `config.enable_ranking`.  Each step's raising calls all happen
before its state mutations, so the state checkpointed by the `except` arm
is the last completed step's state with `error` set. -/
def PipelineManager.run (co : AgentCoordinator) (data : DataFrame)
    (er : Bool) : PipelineResult × List PipelineState :=
  match PipelineManager.execute_profiling co data initPipelineState with
  | .error e => (failRes e, [errState initPipelineState e])
  | .ok s1 =>
    match PipelineManager.execute_candidate_generation co s1 with
    | .error e => (failRes e, [s1, errState s1 e])
    | .ok s2 =>
      match PipelineManager.execute_validation_and_scoring co data s2 with
      | .error e => (failRes e, [s1, s2, errState s2 e])
      | .ok s3 =>
        if er then
          match PipelineManager.execute_ranking co s3 with
          | .error e => (failRes e, [s1, s2, s3, errState s3 e])
          | .ok s4 =>
            match finalData co data s4 with
            | .error e => (failRes e, [s1, s2, s3, s4, errState s4 e])
            | .ok fd => (okRes fd s4, [s1, s2, s3, s4])
        else
          match finalData co data s3 with
          | .error e => (failRes e, [s1, s2, s3, errState s3 e])
          | .ok fd => (okRes fd s3, [s1, s2, s3])

/-- A state is clean of the dead steps: `EXECUTION` and `SCORING` appear
neither among its completed steps nor as its current step. -/
def StepsOk (s : PipelineState) : Prop :=
  PipelineStep.EXECUTION ∉ s.completed_steps ∧
  PipelineStep.SCORING ∉ s.completed_steps ∧
  s.current_step ≠ PipelineStep.EXECUTION ∧
  s.current_step ≠ PipelineStep.SCORING

/-- A successful transformation result returning the input unchanged. -/
def trOkId (data : DataFrame) (t : Transformation) :
    TransformationResult :=
  { transformation := t, success := true, output_data := data,
    error_message := none, execution_time_ms := 0 }

/-- A coordinator whose generator returns no transformations. -/
def coNoCands : AgentCoordinator :=
  { profiler := fun _ => .ok profileAge,
    transformation := fun _ => .ok [],
    execution := fun d t => .ok (trOkId d t),
    validation := fun _ _ _ => .ok vrPass,
    quality_scoring := fun _ _ => .ok qmZero,
    compare := fun b a => { before := b, after := a,
                            improvement := qmZero, composite_delta := 0 },
    ranking := fun _ => .error "unused" }

/-- A coordinator producing exactly one passing candidate. -/
def coOneCand : AgentCoordinator :=
  { profiler := fun _ => .ok profileAge,
    transformation := fun _ => .ok [tGenMean],
    execution := fun d t => .ok (trOkId d t),
    validation := fun _ _ _ => .ok vrPass,
    quality_scoring := fun _ _ => .ok qmZero,
    compare := fun b a => { before := b, after := a,
                            improvement := qmZero, composite_delta := 0 },
    ranking := fun cs => .ok (cs.map (fun c =>
      { rank := 1, candidate := c, composite_score := 0,
        reasoning := "w" })) }

/-- The one candidate `coOneCand`'s run builds. -/
def candOne : TransformationCandidate :=
  { transformation := tGenMean, validation_result := vrPass,
    quality_before := qmZero, quality_after := qmZero,
    quality_delta := { before := qmZero, after := qmZero,
                       improvement := qmZero, composite_delta := 0 } }

/-- The final checkpoint of `coOneCand`'s run with ranking enabled. -/
def c9FinalState : PipelineState :=
  { current_step := .RANKING,
    completed_steps := [.PROFILING, .GENERATION, .VALIDATION, .RANKING],
    data_profile := some profileAge,
    candidates := [candOne],
    ranked_transformations := [{ rank := 1, candidate := candOne,
                                 composite_score := 0, reasoning := "w" }],
    error := none }

/-! ## Object-identity model of the appliers (C10)

Python objects live on a heap; a `pd.DataFrame` argument is a reference
into it.  The heap is a `List DataFrame`, a reference an index.  Every
applier's `apply` starts with `result = data.copy()` (fill_missing.py:27,
normalize.py:26, encode_categorical.py:32, remove_outliers.py:28,
drop_duplicates.py:21, cast_type.py:24) and mutates only `result` (the
one-hot branch of `encode_categorical` rebinds `result` to another fresh
object built by `pd.concat`, which also leaves its inputs untouched). -/

/-- Dereference: the object stored at index `r`. -/
def readH (h : List DataFrame) (r : Nat) : DataFrame :=
  h.getD r dfEmpty

/-- In-place mutation of the object at index `r`. -/
def writeH (h : List DataFrame) (r : Nat) (df : DataFrame) :
    List DataFrame :=
  h.set r df

/-- An applier's `apply` in the heap model: `result = data.copy()`
allocates a fresh object at the end of the heap, the applier's pandas
pipeline `F` computes the new value from the copy (or raises), and all
writes hit only the fresh object, whose reference is returned. -/
def applyCopyH (F : Transformation → DataFrame → Except String DataFrame)
    (t : Transformation) (h : List DataFrame) (r : Nat) :
    List DataFrame × Except String Nat :=
  let h1 := h ++ [readH h r]
  let rc := h.length
  match F t (readH h1 rc) with
  | .error e => (h1, .error e)
  | .ok val => (writeH h1 rc val, .ok rc)

/-- `TransformationExecutor.execute` (executor.py:35-83) in the heap
model: result reference and success flag; on failure the returned
`output_data` is the input reference itself (executor.py:80). -/
def executeH (ops : ApplierOps) (t : Transformation)
    (h : List DataFrame) (r : Nat) : List DataFrame × Nat × Bool :=
  match applyCopyH (registryApply ops t.type) t h r with
  | (h2, .ok r2) => (h2, r2, true)
  | (h2, .error _) => (h2, r, false)

/-! ## Supporting lemmas about `kahnUpdate` and the loop invariant -/

theorem kahnUpdate_fst_eq (dl : String → List String) (cur : String) :
    ∀ l : List (String × Int),
      (kahnUpdate dl cur l).1 =
        l.map (fun p => if cur ∈ dl p.1 then (p.1, p.2 - 1) else p)
  | [] => rfl
  | (n, k) :: tl => by
    by_cases hmem : cur ∈ dl n
    · simp [kahnUpdate, hmem, kahnUpdate_fst_eq dl cur tl]
    · simp [kahnUpdate, hmem, kahnUpdate_fst_eq dl cur tl]

theorem kahnUpdate_snd_eq (dl : String → List String) (cur : String) :
    ∀ l : List (String × Int),
      (kahnUpdate dl cur l).2 =
        (l.filter (fun p => decide (cur ∈ dl p.1) && decide (p.2 = 1))).map Prod.fst
  | [] => rfl
  | (n, k) :: tl => by
    by_cases hmem : cur ∈ dl n
    · by_cases hk : k - 1 = 0
      · have hk1 : k = 1 := by omega
        simp [kahnUpdate, hmem, hk, hk1, kahnUpdate_snd_eq dl cur tl]
      · have hk1 : ¬ k = 1 := by omega
        simp [kahnUpdate, hmem, hk, hk1, kahnUpdate_snd_eq dl cur tl]
    · simp [kahnUpdate, hmem, kahnUpdate_snd_eq dl cur tl]

theorem kahnUpdate_fst_map (dl : String → List String) (cur : String)
    (l : List (String × Int)) :
    (kahnUpdate dl cur l).1.map Prod.fst = l.map Prod.fst := by
  rw [kahnUpdate_fst_eq]
  rw [List.map_map]
  apply List.map_congr_left
  intro p _
  by_cases hmem : cur ∈ dl p.1 <;> simp [hmem]

theorem find?_fst_map (f : String × Int → String × Int)
    (hf : ∀ p, (f p).1 = p.1) (n : String) :
    ∀ l : List (String × Int),
      List.find? (fun p => p.1 = n) (l.map f) =
        (List.find? (fun p => p.1 = n) l).map f
  | [] => rfl
  | a :: tl => by
    by_cases ha : a.1 = n
    · rw [List.map_cons, List.find?_cons_of_pos _ (by simp [hf a, ha]),
        List.find?_cons_of_pos _ (by simp [ha])]
      simp
    · rw [List.map_cons, List.find?_cons_of_neg _ (by simp [hf a, ha]),
        List.find?_cons_of_neg _ (by simp [ha]), find?_fst_map f hf n tl]

theorem kahnUpdate_lookup (dl : String → List String) (cur : String)
    (l : List (String × Int)) (n : String) :
    lookupDeg (kahnUpdate dl cur l).1 n =
      if n ∈ l.map Prod.fst ∧ cur ∈ dl n then lookupDeg l n - 1 else lookupDeg l n := by
  rw [lookupDeg, kahnUpdate_fst_eq,
    find?_fst_map (fun p => if cur ∈ dl p.1 then (p.1, p.2 - 1) else p)
      (fun p => by by_cases hmem : cur ∈ dl p.1 <;> simp [hmem]) n l]
  cases hfind : List.find? (fun p => p.1 = n) l with
  | none =>
    have hnm : n ∉ l.map Prod.fst := by
      intro hn
      rcases List.mem_map.mp hn with ⟨p, hp, hpn⟩
      have := List.find?_eq_none.mp hfind p hp
      simp [hpn] at this
    simp [hnm, lookupDeg, hfind]
  | some p =>
    have hp1 : p.1 = n := by simpa using List.find?_some hfind
    have hmm : n ∈ l.map Prod.fst :=
      List.mem_map.mpr ⟨p, List.mem_of_find?_eq_some hfind, hp1⟩
    by_cases hmem : cur ∈ dl n
    · simp [hmm, hmem, lookupDeg, hfind, hp1]
    · simp [hmm, hmem, lookupDeg, hfind, hp1]

theorem mem_kahnUpdate_snd (dl : String → List String) (cur : String)
    (l : List (String × Int)) (n : String) :
    n ∈ (kahnUpdate dl cur l).2 ↔ ∃ k, (n, k) ∈ l ∧ cur ∈ dl n ∧ k = 1 := by
  rw [kahnUpdate_snd_eq]
  simp only [List.mem_map, List.mem_filter]
  constructor
  · rintro ⟨⟨p1, p2⟩, ⟨hp, hcond⟩, hpn⟩
    simp only [Bool.and_eq_true, decide_eq_true_eq] at hcond
    dsimp only at hpn
    subst hpn
    exact ⟨p2, hp, hcond.1, hcond.2⟩
  · intro ⟨k, hk, hdl, hk1⟩
    exact ⟨(n, k), ⟨hk, by simp [hdl, hk1]⟩, rfl⟩

theorem kahnUpdate_snd_sublist (dl : String → List String) (cur : String)
    (l : List (String × Int)) :
    (kahnUpdate dl cur l).2.Sublist (l.map Prod.fst) := by
  rw [kahnUpdate_snd_eq]
  exact (List.filter_sublist l).map Prod.fst

theorem kahnUpdate_measure (dl : String → List String) (cur : String) :
    ∀ l : List (String × Int),
      degSum (kahnUpdate dl cur l).1 + (kahnUpdate dl cur l).2.length ≤ degSum l
  | [] => by simp [kahnUpdate, degSum]
  | (n, k) :: tl => by
    have htl := kahnUpdate_measure dl cur tl
    simp only [degSum] at htl
    by_cases hc : (dl n).contains cur = true
    · by_cases hk : k - 1 = 0
      · simp only [kahnUpdate, if_pos hc, if_pos hk, degSum, List.map_cons,
          List.sum_cons, List.length_cons]
        omega
      · simp only [kahnUpdate, if_pos hc, if_neg hk, degSum, List.map_cons,
          List.sum_cons]
        omega
    · simp only [kahnUpdate, if_neg hc, degSum, List.map_cons, List.sum_cons]
      omega

theorem lookupDeg_of_mem :
    ∀ {l : List (String × Int)}, (l.map Prod.fst).Nodup →
      ∀ {n : String} {k : Int}, (n, k) ∈ l → lookupDeg l n = k := by
  intro l
  induction l with
  | nil => intro _ n k h; simp at h
  | cons a tl ih =>
    intro hnd n k h
    have hnd2 : a.1 ∉ tl.map Prod.fst ∧ (tl.map Prod.fst).Nodup := by
      rw [List.map_cons] at hnd
      exact List.nodup_cons.mp hnd
    rcases List.mem_cons.mp h with h | h
    · subst h
      rw [lookupDeg, List.find?_cons_of_pos _ (by simp)]
      rfl
    · have hfst : n ∈ tl.map Prod.fst := List.mem_map.mpr ⟨(n, k), h, rfl⟩
      have hne : ¬ a.1 = n := fun he => hnd2.1 (he ▸ hfst)
      rw [lookupDeg, List.find?_cons_of_neg _ (by simp [hne])]
      exact ih hnd2.2 h

theorem lookupDeg_mem :
    ∀ {l : List (String × Int)} {n : String}, n ∈ l.map Prod.fst →
      (n, lookupDeg l n) ∈ l := by
  intro l
  induction l with
  | nil => intro n h; simp at h
  | cons a tl ih =>
    intro n h
    by_cases ha : a.1 = n
    · rw [lookupDeg, List.find?_cons_of_pos _ (by simp [ha])]
      simp only [Option.map_some', Option.getD_some]
      have hpair : (n, a.2) = a := by rw [← ha]
      rw [hpair]
      exact List.mem_cons_self _ _
    · rw [lookupDeg, List.find?_cons_of_neg _ (by simp [ha])]
      have htl : n ∈ tl.map Prod.fst := by
        rcases List.mem_map.mp h with ⟨p, hp, hpn⟩
        rcases List.mem_cons.mp hp with hp | hp
        · exact absurd (hp ▸ hpn) ha
        · exact List.mem_map.mpr ⟨p, hp, hpn⟩
      exact List.mem_cons_of_mem _ (ih htl)

theorem length_filter_and_ne_core :
    ∀ (l : List String), l.Nodup → ∀ (p : String → Bool) (c : String),
      c ∈ l → p c = true →
      (l.filter (fun b => p b && !(b == c))).length + 1 = (l.filter p).length := by
  intro l
  induction l with
  | nil => intro _ p c hc; simp at hc
  | cons a tl ih =>
    intro hnd p c hc hpc
    rcases List.mem_cons.mp hc with hac | hc2
    · have hpa : p a = true := by rwa [hac] at hpc
      have hcnotin : c ∉ tl := by
        rw [hac]
        exact (List.nodup_cons.mp hnd).1
      have hco : tl.filter (fun b => p b && !(b == c)) = tl.filter p := by
        apply List.filter_congr
        intro b hb
        have hbc : ¬ b = c := fun he => hcnotin (he ▸ hb)
        simp [hbc]
      rw [List.filter_cons, List.filter_cons, hco,
        if_neg (by simp [hac] : ¬ ((p a && !(a == c)) = true)), if_pos hpa]
      simp
    · have ih2 := ih (List.nodup_cons.mp hnd).2 p c hc2 hpc
      have hne : ¬ a = c := by
        intro he
        exact (List.nodup_cons.mp hnd).1 (he ▸ hc2)
      rw [List.filter_cons, List.filter_cons]
      by_cases hpa : p a = true
      · rw [if_pos (by simp [hpa, hne] : ((p a && !(a == c)) = true)), if_pos hpa]
        simp only [List.length_cons]
        omega
      · rw [if_neg (by simp [hpa] : ¬ ((p a && !(a == c)) = true)), if_neg hpa]
        exact ih2

theorem length_filter_and_ne (l : List String) (hl : l.Nodup)
    (p q : String → Bool) (c : String) (hc : c ∈ l) (hpc : p c = true)
    (hq : ∀ b, q b = (p b && !(b == c))) :
    (l.filter q).length + 1 = (l.filter p).length := by
  have heq : l.filter q = l.filter (fun b => p b && !(b == c)) :=
    List.filter_congr (fun b _ => hq b)
  rw [heq]
  exact length_filter_and_ne_core l hl p c hc hpc

theorem kahn_step (dl : String → List String) (K : List String)
    (hK : K.Nodup) (hdl : ∀ n, (dl n).Nodup)
    (inDeg : List (String × Int)) (cur : String) (rest order : List String)
    (inv : KInv dl K inDeg (cur :: rest) order) :
    KInv dl K (kahnUpdate dl cur inDeg).1 (rest ++ (kahnUpdate dl cur inDeg).2)
      (order ++ [cur]) := by
  obtain ⟨keysEq, degEq, nodupAll, orderSub, queueSub, zeroDone, queueReady,
    orderClosed, orderSorted⟩ := inv
  have hKnd : (inDeg.map Prod.fst).Nodup := keysEq ▸ hK
  have hcurK : cur ∈ K := queueSub cur (List.mem_cons_self _ _)
  have hcurOrd : cur ∉ order := fun hmem =>
    (List.disjoint_of_nodup_append nodupAll) hmem (List.mem_cons_self _ _)
  have hcurReady : ∀ b ∈ dl cur, b ∈ K → b ∈ order :=
    queueReady cur (List.mem_cons_self _ _)
  have keysEq2 : (kahnUpdate dl cur inDeg).1.map Prod.fst = K := by
    rw [kahnUpdate_fst_map]; exact keysEq
  -- in-degree bookkeeping after emitting `cur`
  have degEq2 : ∀ n ∈ K, lookupDeg (kahnUpdate dl cur inDeg).1 n =
      (((dl n).filter
        (fun b => K.contains b && !((order ++ [cur]).contains b))).length : Int) := by
    intro n hn
    rw [kahnUpdate_lookup, keysEq]
    have hpredEq : ∀ b,
        (K.contains b && !((order ++ [cur]).contains b)) =
          ((K.contains b && !(order.contains b)) && !(b == cur)) := by
      intro b
      by_cases h1 : b ∈ K <;> by_cases h2 : b ∈ order <;> by_cases h3 : b = cur <;>
        simp [h1, h2, h3]
    by_cases hdln : cur ∈ dl n
    · rw [if_pos ⟨hn, hdln⟩, degEq n hn]
      have hcount := length_filter_and_ne (dl n) (hdl n)
        (fun b => K.contains b && !(order.contains b))
        (fun b => K.contains b && !((order ++ [cur]).contains b))
        cur hdln (by simp [hcurK, hcurOrd]) hpredEq
      omega
    · rw [if_neg (fun h => hdln h.2), degEq n hn]
      congr 1
      apply congrArg
      apply List.filter_congr
      intro b hb
      have hbc : ¬ b = cur := fun he => hdln (he ▸ hb)
      by_cases h1 : b ∈ K <;> by_cases h2 : b ∈ order <;> simp [h1, h2, hbc]
  -- facts about the freshly enqueued nodes
  have henqK : ∀ n ∈ (kahnUpdate dl cur inDeg).2, n ∈ K := by
    intro n hn
    have := (kahnUpdate_snd_sublist dl cur inDeg).mem hn
    rwa [keysEq] at this
  have henqNodup : (kahnUpdate dl cur inDeg).2.Nodup :=
    (kahnUpdate_snd_sublist dl cur inDeg).nodup hKnd
  have henqDeg : ∀ n ∈ (kahnUpdate dl cur inDeg).2, lookupDeg inDeg n = 1 := by
    intro n hn
    rcases (mem_kahnUpdate_snd dl cur inDeg n).mp hn with ⟨k, hk, _, hk1⟩
    rw [lookupDeg_of_mem hKnd hk, hk1]
  have hmemDegZeroOrd : ∀ n ∈ order, lookupDeg inDeg n = 0 := by
    intro n hn
    rw [degEq n (orderSub n hn)]
    have hfil : (dl n).filter (fun b => K.contains b && !(order.contains b)) = [] := by
      apply List.filter_eq_nil_iff.mpr
      intro b hb
      by_cases h1 : b ∈ K
      · have hbo : b ∈ order := orderClosed n hn b hb h1
        simp [h1, hbo]
      · simp [h1]
    rw [hfil]
    rfl
  have hmemDegZeroQ : ∀ n ∈ cur :: rest, lookupDeg inDeg n = 0 := by
    intro n hn
    rw [degEq n (queueSub n hn)]
    have hfil : (dl n).filter (fun b => K.contains b && !(order.contains b)) = [] := by
      apply List.filter_eq_nil_iff.mpr
      intro b hb
      by_cases h1 : b ∈ K
      · have hbo : b ∈ order := queueReady n hn b hb h1
        simp [h1, hbo]
      · simp [h1]
    rw [hfil]
    rfl
  have henqFresh : ∀ n ∈ (kahnUpdate dl cur inDeg).2,
      n ∉ order ∧ n ∉ cur :: rest := by
    intro n hn
    constructor
    · intro hmem
      have := hmemDegZeroOrd n hmem
      have := henqDeg n hn
      omega
    · intro hmem
      have := hmemDegZeroQ n hmem
      have := henqDeg n hn
      omega
  refine ⟨keysEq2, degEq2, ?_, ?_, ?_, ?_, ?_, ?_, ?_⟩
  · -- nodupAll
    have heq : order ++ [cur] ++ (rest ++ (kahnUpdate dl cur inDeg).2) =
        (order ++ cur :: rest) ++ (kahnUpdate dl cur inDeg).2 := by
      simp
    rw [heq, List.nodup_append]
    refine ⟨nodupAll, henqNodup, ?_⟩
    intro a ha ha2
    rcases List.mem_append.mp ha with ha | ha
    · exact (henqFresh a ha2).1 ha
    · exact (henqFresh a ha2).2 ha
  · -- orderSub
    intro a ha
    rcases List.mem_append.mp ha with ha | ha
    · exact orderSub a ha
    · simp only [List.mem_singleton] at ha
      exact ha ▸ hcurK
  · -- queueSub
    intro a ha
    rcases List.mem_append.mp ha with ha | ha
    · exact queueSub a (List.mem_cons_of_mem _ ha)
    · exact henqK a ha
  · -- zeroDone
    intro n hn hdeg
    rw [kahnUpdate_lookup, keysEq] at hdeg
    by_cases hdln : cur ∈ dl n
    · rw [if_pos ⟨hn, hdln⟩] at hdeg
      right
      apply List.mem_append.mpr
      right
      apply (mem_kahnUpdate_snd dl cur inDeg n).mpr
      refine ⟨lookupDeg inDeg n, lookupDeg_mem (keysEq ▸ hn), hdln, by omega⟩
    · rw [if_neg (fun h => hdln h.2)] at hdeg
      rcases zeroDone n hn hdeg with h | h
      · exact Or.inl (List.mem_append.mpr (Or.inl h))
      · rcases List.mem_cons.mp h with h | h
        · exact Or.inl (List.mem_append.mpr (Or.inr (by simp [h])))
        · exact Or.inr (List.mem_append.mpr (Or.inl h))
  · -- queueReady
    intro n hn b hb hbK
    rcases List.mem_append.mp hn with hn | hn
    · exact List.mem_append.mpr
        (Or.inl (queueReady n (List.mem_cons_of_mem _ hn) b hb hbK))
    · have hdeg0 : lookupDeg (kahnUpdate dl cur inDeg).1 n = 0 := by
        rcases (mem_kahnUpdate_snd dl cur inDeg n).mp hn with ⟨k, hk, hdln, hk1⟩
        rw [kahnUpdate_lookup, keysEq, if_pos ⟨henqK n hn, hdln⟩,
          lookupDeg_of_mem hKnd hk, hk1]
        omega
      rw [degEq2 n (henqK n hn)] at hdeg0
      have hlen0 : ((dl n).filter
          (fun b => K.contains b && !((order ++ [cur]).contains b))).length = 0 := by
        exact_mod_cast hdeg0
      have hfe : (dl n).filter
          (fun b => K.contains b && !((order ++ [cur]).contains b)) = [] :=
        List.length_eq_zero.mp hlen0
      have := List.filter_eq_nil_iff.mp hfe b hb
      simp only [Bool.and_eq_true, Bool.not_eq_true'] at this
      by_contra hbno
      apply this
      constructor
      · simpa using hbK
      · simpa using hbno
  · -- orderClosed
    intro a ha b hb hbK
    rcases List.mem_append.mp ha with ha | ha
    · exact List.mem_append.mpr (Or.inl (orderClosed a ha b hb hbK))
    · simp only [List.mem_singleton] at ha
      subst ha
      exact List.mem_append.mpr (Or.inl (hcurReady b hb hbK))
  · -- orderSorted
    rw [List.pairwise_append]
    refine ⟨orderSorted, List.pairwise_singleton _ _, ?_⟩
    intro x hx y hy
    simp only [List.mem_singleton] at hy
    intro hcon
    rw [hy] at hcon
    exact hcurOrd (orderClosed x hx cur hcon.1 hcurK)

theorem lookupDeg_initAux (ks : List String) :
    ∀ (l : List (String × List String)) (n : String),
      lookupDeg
        (l.map (fun p => (p.1, ((p.2.filter (fun b => ks.contains b)).length : Int)))) n =
      (((((List.find? (fun p => p.1 = n) l).map Prod.snd).getD []).filter
        (fun b => ks.contains b)).length : Int)
  | [], n => by simp [lookupDeg]
  | a :: tl, n => by
    by_cases ha : a.1 = n
    · rw [List.map_cons, lookupDeg, List.find?_cons_of_pos _ (by simp [ha]),
        List.find?_cons_of_pos _ (by simp [ha])]
      rfl
    · rw [List.map_cons, lookupDeg, List.find?_cons_of_neg _ (by simp [ha]),
        List.find?_cons_of_neg _ (by simp [ha])]
      exact lookupDeg_initAux ks tl n

theorem lookupDeg_initInDegree (d : TransformationDAG) (n : String) :
    lookupDeg (initInDegree d) n =
      (((d.depsOf n).filter (fun b => d.keys.contains b)).length : Int) :=
  lookupDeg_initAux d.keys d.deps n

theorem initInDegree_fst (d : TransformationDAG) :
    (initInDegree d).map Prod.fst = d.keys := by
  rw [initInDegree, List.map_map]
  rfl

theorem kahn_init (d : TransformationDAG) (hwf : d.WF) :
    KInv d.depsOf d.keys (initInDegree d)
      (((initInDegree d).filter (fun p => p.2 = 0)).map Prod.fst) [] := by
  have hfst := initInDegree_fst d
  have hdegInit : ∀ n, lookupDeg (initInDegree d) n =
      (((d.depsOf n).filter (fun b => d.keys.contains b)).length : Int) :=
    lookupDeg_initInDegree d
  have hqueue : ∀ n, n ∈ ((initInDegree d).filter (fun p => p.2 = 0)).map Prod.fst →
      n ∈ d.keys ∧ lookupDeg (initInDegree d) n = 0 := by
    intro n hn
    rcases List.mem_map.mp hn with ⟨p, hp, hpn⟩
    have hp2 := List.mem_filter.mp hp
    have h0 : p.2 = 0 := by simpa using hp2.2
    have hmem : (n, (0 : Int)) ∈ initInDegree d := by
      have : p = (n, (0 : Int)) := by
        rcases p with ⟨p1, pk⟩
        simp only at hpn h0
        rw [hpn, h0]
      exact this ▸ hp2.1
    constructor
    · rw [← hfst]
      exact List.mem_map.mpr ⟨(n, (0 : Int)), hmem, rfl⟩
    · exact lookupDeg_of_mem (hfst ▸ hwf.keysNodup) hmem
  refine ⟨hfst, ?_, ?_, ?_, ?_, ?_, ?_, ?_, ?_⟩
  · intro n _
    rw [hdegInit n]
    congr 1
    apply congrArg
    apply List.filter_congr
    intro b _
    simp
  · simp only [List.nil_append]
    exact (((List.filter_sublist (initInDegree d)).map Prod.fst).nodup
      (hfst ▸ hwf.keysNodup))
  · intro a ha
    simp at ha
  · intro a ha
    exact (hqueue a ha).1
  · intro n hn hdeg
    right
    have hmem : (n, lookupDeg (initInDegree d) n) ∈ initInDegree d :=
      lookupDeg_mem (hfst ▸ hn)
    rw [hdeg] at hmem
    apply List.mem_map.mpr
    refine ⟨(n, (0 : Int)), List.mem_filter.mpr ⟨hmem, by simp⟩, rfl⟩
  · intro n hn b hb hbK
    have h0 := (hqueue n hn).2
    rw [hdegInit n] at h0
    have hlen0 : (((d.depsOf n).filter (fun b => d.keys.contains b)).length : Nat) = 0 := by
      exact_mod_cast h0
    have hfe := List.length_eq_zero.mp hlen0
    have := List.filter_eq_nil_iff.mp hfe b hb
    simp [hbK] at this
  · intro a ha
    simp at ha
  · exact List.Pairwise.nil

theorem kahnLoop_spec (dl : String → List String) (K : List String)
    (hK : K.Nodup) (hdl : ∀ n, (dl n).Nodup) :
    ∀ (fuel : Nat) (inDeg : List (String × Int)) (queue order : List String),
      KInv dl K inDeg queue order →
      queue.length + degSum inDeg < fuel →
      ∃ res inDegF, kahnLoop dl fuel inDeg queue order = some res ∧
        KInv dl K inDegF [] res := by
  intro fuel
  induction fuel with
  | zero => intro inDeg queue order _ h; omega
  | succ fuel ih =>
    intro inDeg queue order inv hfuel
    cases queue with
    | nil => exact ⟨order, inDeg, rfl, inv⟩
    | cons cur rest =>
      have step := kahn_step dl K hK hdl inDeg cur rest order inv
      have hmeas := kahnUpdate_measure dl cur inDeg
      have hlt : (rest ++ (kahnUpdate dl cur inDeg).2).length +
          degSum (kahnUpdate dl cur inDeg).1 < fuel := by
        simp only [List.length_append, List.length_cons] at hfuel ⊢
        omega
      rcases ih _ _ _ step hlt with ⟨res, inDegF, hres, hinv⟩
      exact ⟨res, inDegF, hres, hinv⟩

theorem transGen_chain {α : Type} (r : α → α → Prop) (g : α → α) (x0 : α)
    (P : α → Prop) (hP0 : P x0) (hstep : ∀ x, P x → P (g x) ∧ r x (g x)) :
    ∀ k : Nat, Relation.TransGen r (g^[k] x0) (g^[k + 1] x0) ∧ P (g^[k] x0) := by
  intro k
  induction k with
  | zero =>
    refine ⟨Relation.TransGen.single ?_, hP0⟩
    simpa using (hstep x0 hP0).2
  | succ k hk =>
    have hPk1 : P (g^[k + 1] x0) := by
      rw [Function.iterate_succ_apply']
      exact (hstep _ hk.2).1
    refine ⟨Relation.TransGen.single ?_, hPk1⟩
    have hr := (hstep _ hPk1).2
    nth_rewrite 2 [Function.iterate_succ_apply']
    exact hr

theorem transGen_iterate {α : Type} (r : α → α → Prop) (g : α → α) (x0 : α)
    (P : α → Prop) (hP0 : P x0) (hstep : ∀ x, P x → P (g x) ∧ r x (g x)) :
    ∀ i j : Nat, i < j → Relation.TransGen r (g^[i] x0) (g^[j] x0) := by
  intro i j hij
  obtain ⟨k, rfl⟩ : ∃ k, j = i + k + 1 := ⟨j - i - 1, by omega⟩
  clear hij
  induction k with
  | zero => exact (transGen_chain r g x0 P hP0 hstep i).1
  | succ k hk =>
    have hnext := (transGen_chain r g x0 P hP0 hstep (i + k + 1)).1
    have : i + (k + 1) + 1 = (i + k + 1) + 1 := by omega
    rw [this]
    exact Relation.TransGen.trans hk hnext

theorem kahn_no_leftover (dl : String → List String) (K : List String)
    (hK : K.Nodup)
    (hacyc : ∀ n, ¬ Relation.TransGen (fun a b => b ∈ dl a ∧ a ∈ K ∧ b ∈ K) n n)
    (res : List String) (hsub : ∀ a ∈ res, a ∈ K) (hnd : res.Nodup)
    (hleft : ∀ n ∈ K, n ∉ res → ∃ b, b ∈ dl n ∧ b ∈ K ∧ b ∉ res) :
    res.length = K.length := by
  by_contra hne
  have hle : res.length ≤ K.length :=
    (List.subperm_of_subset hnd (fun a ha => hsub a ha)).length_le
  have hlt : res.length < K.length := lt_of_le_of_ne hle hne
  have hex : ∃ x, x ∈ K ∧ x ∉ res := by
    by_contra hno
    push_neg at hno
    have hKsub : K.Subperm res := List.subperm_of_subset hK (fun a ha => hno a ha)
    have := hKsub.length_le
    omega
  obtain ⟨x0, hx0K, hx0⟩ := hex
  have hgex : ∀ x : String, ∃ y : String,
      (x ∈ K ∧ x ∉ res) → ((y ∈ K ∧ y ∉ res) ∧ y ∈ dl x) := by
    intro x
    by_cases hx : x ∈ K ∧ x ∉ res
    · rcases hleft x hx.1 hx.2 with ⟨b, hb1, hb2, hb3⟩
      exact ⟨b, fun _ => ⟨⟨hb2, hb3⟩, hb1⟩⟩
    · exact ⟨x, fun h => absurd h hx⟩
  choose g hg using hgex
  have hstep : ∀ x, (x ∈ K ∧ x ∉ res) →
      ((g x ∈ K ∧ g x ∉ res) ∧
        (fun a b => b ∈ dl a ∧ a ∈ K ∧ b ∈ K) x (g x)) := by
    intro x hx
    refine ⟨(hg x hx).1, (hg x hx).2, hx.1, (hg x hx).1.1⟩
  have hPiter : ∀ k : Nat, g^[k] x0 ∈ K ∧ g^[k] x0 ∉ res := by
    intro k
    exact (transGen_chain (fun a b => b ∈ dl a ∧ a ∈ K ∧ b ∈ K) g x0 (fun x => x ∈ K ∧ x ∉ res) ⟨hx0K, hx0⟩ hstep k).2
  have hmapsto : ∀ n ∈ Finset.range (K.toFinset.card + 1),
      g^[n] x0 ∈ K.toFinset := by
    intro n _
    exact List.mem_toFinset.mpr (hPiter n).1
  have hcard : K.toFinset.card < (Finset.range (K.toFinset.card + 1)).card := by
    simp
  obtain ⟨i, _, j, _, hij, heq⟩ :=
    Finset.exists_ne_map_eq_of_card_lt_of_maps_to hcard hmapsto
  rcases Nat.lt_or_ge i j with hlt2 | hge
  · have := transGen_iterate (fun a b => b ∈ dl a ∧ a ∈ K ∧ b ∈ K) g x0 (fun x => x ∈ K ∧ x ∉ res) ⟨hx0K, hx0⟩ hstep i j hlt2
    rw [heq] at this
    exact hacyc _ this
  · have hjlt : j < i := by omega
    have := transGen_iterate (fun a b => b ∈ dl a ∧ a ∈ K ∧ b ∈ K) g x0 (fun x => x ∈ K ∧ x ∉ res) ⟨hx0K, hx0⟩ hstep j i hjlt
    rw [← heq] at this
    exact hacyc _ this

theorem depsOf_nodup (d : TransformationDAG) (hwf : d.WF) (n : String) :
    (d.depsOf n).Nodup := by
  rw [TransformationDAG.depsOf]
  cases hfind : List.find? (fun p => p.1 = n) d.deps with
  | none => simp
  | some p =>
    simp only [Option.map_some', Option.getD_some]
    exact hwf.depsNodup p (List.mem_of_find?_eq_some hfind)

/-- Full correctness of `topological_sort` on a well-formed acyclic graph
whose cached order is empty: the call succeeds, the returned order is a
permutation of the node set that places every dependency strictly before its
dependent, and the order is stored in the cache. -/
theorem topological_sort_acyclic (d : TransformationDAG) (hwf : d.WF)
    (hcache : d.execOrder = []) (hacyc : d.Acyclic) :
    ∃ res, d.topological_sort = (.ok res, { d with execOrder := res }) ∧
      res.Perm d.keys ∧
      ∀ (i j : Nat) (hi : i < res.length) (hj : j < res.length),
        res[i] ∈ d.depsOf res[j] → i < j := by
  have hK := hwf.keysNodup
  have hdl := depsOf_nodup d hwf
  have init := kahn_init d hwf
  have hfuelOK :
      (((initInDegree d).filter (fun p => p.2 = 0)).map Prod.fst).length +
        degSum (initInDegree d) <
      kahnFuel (initInDegree d)
        (((initInDegree d).filter (fun p => p.2 = 0)).map Prod.fst) := by
    rw [kahnFuel]
    omega
  obtain ⟨res, inDegF, hloop, hfin⟩ :=
    kahnLoop_spec d.depsOf d.keys hK hdl _ _ _ _ init hfuelOK
  have hresNodup : res.Nodup := by
    have := hfin.nodupAll
    simpa using this
  have hresSub : ∀ a ∈ res, a ∈ d.keys := hfin.orderSub
  have hleft : ∀ n ∈ d.keys, n ∉ res →
      ∃ b, b ∈ d.depsOf n ∧ b ∈ d.keys ∧ b ∉ res := by
    intro n hn hnres
    by_cases hdeg : lookupDeg inDegF n = 0
    · rcases hfin.zeroDone n hn hdeg with h | h
      · exact absurd h hnres
      · simp at h
    · rw [hfin.degEq n hn] at hdeg
      rcases hfe : (d.depsOf n).filter
          (fun b => d.keys.contains b && !(res.contains b)) with _ | ⟨x, xs⟩
      · rw [hfe] at hdeg
        simp at hdeg
      · have hx : x ∈ (d.depsOf n).filter
            (fun b => d.keys.contains b && !(res.contains b)) := by
          rw [hfe]
          exact List.mem_cons_self _ _
        have hx2 := List.mem_filter.mp hx
        have hcond := hx2.2
        simp only [Bool.and_eq_true, Bool.not_eq_true', decide_eq_true_eq] at hcond
        refine ⟨x, hx2.1, by simpa using hcond.1, ?_⟩
        intro hmem
        have : res.contains x = true := by simpa using hmem
        rw [this] at hcond
        exact absurd hcond.2 (by simp)
  have hacyc2 : ∀ n, ¬ Relation.TransGen
      (fun a b => b ∈ d.depsOf a ∧ a ∈ d.keys ∧ b ∈ d.keys) n n := hacyc
  have hlen := kahn_no_leftover d.depsOf d.keys hK hacyc2 res hresSub hresNodup hleft
  have hperm : res.Perm d.keys :=
    (List.subperm_of_subset hresNodup hresSub).perm_of_length_le (by omega)
  refine ⟨res, ?_, hperm, ?_⟩
  · rw [TransformationDAG.topological_sort, if_neg (by simp [hcache])]
    have hkeys : d.keys.length = res.length := hlen.symm
    simp only [hloop, Option.getD_some]
    rw [if_neg (by omega)]
  · intro i j hi hj hdep
    have hjK : res[j] ∈ d.keys := hresSub _ (List.getElem_mem hj)
    have hiK : res[i] ∈ d.keys := hresSub _ (List.getElem_mem hi)
    rcases Nat.lt_trichotomy i j with h | h | h
    · exact h
    · exfalso
      subst h
      exact hacyc res[i] (Relation.TransGen.single ⟨hdep, hjK, hiK⟩)
    · exfalso
      have hpair := List.pairwise_iff_getElem.mp hfin.orderSorted j i hj hi h
      exact hpair ⟨hdep, hiK⟩

theorem add_transformation_clears_cache (d : TransformationDAG) (tid : String) :
    (d.add_transformation tid).execOrder = [] := rfl

theorem add_dependency_keeps_cache (d d2 : TransformationDAG) (a b : String)
    (h : d.add_dependency a b = .ok d2) : d2.execOrder = d.execOrder := by
  rw [TransformationDAG.add_dependency] at h
  by_cases h1 : a ∈ d.keys
  · by_cases h2 : b ∈ d.keys
    · rw [if_neg (by simp [h1]), if_neg (by simp [h2])] at h
      cases h
      rfl
    · rw [if_neg (by simp [h1]), if_pos (by simp [h2])] at h
      cases h
  · rw [if_pos (by simp [h1])] at h
    cases h

theorem WF_empty : TransformationDAG.empty.WF := by
  constructor
  · simp [TransformationDAG.empty, TransformationDAG.keys]
  · intro p hp
    simp [TransformationDAG.empty] at hp

theorem WF_add_transformation (d : TransformationDAG) (h : d.WF) (tid : String) :
    (d.add_transformation tid).WF := by
  by_cases hc : tid ∈ d.keys
  · have hc2 : d.keys.contains tid = true := by simpa using hc
    have hkeys : (d.add_transformation tid).keys = d.keys := by
      simp only [TransformationDAG.add_transformation, if_pos hc2]
      simp only [TransformationDAG.keys, List.map_map]
      apply List.map_congr_left
      intro p _
      by_cases hp : p.1 = tid <;> simp [hp]
    constructor
    · rw [hkeys]
      exact h.keysNodup
    · intro p hp
      simp only [TransformationDAG.add_transformation, if_pos hc2,
        List.mem_map] at hp
      rcases hp with ⟨q, hq, hqp⟩
      by_cases hq1 : q.1 = tid
      · rw [if_pos hq1] at hqp
        rw [← hqp]
        exact List.nodup_nil
      · rw [if_neg hq1] at hqp
        rw [← hqp]
        exact h.depsNodup q hq
  · have hc2 : ¬ d.keys.contains tid = true := by simpa using hc
    constructor
    · simp only [TransformationDAG.add_transformation, if_neg hc2]
      simp only [TransformationDAG.keys, List.map_append, List.map_cons,
        List.map_nil]
      apply List.Nodup.append h.keysNodup (by simp)
      intro x hx hx2
      simp only [List.map_cons, List.map_nil, List.mem_singleton] at hx2
      rw [hx2] at hx
      exact hc hx
    · intro p hp
      simp only [TransformationDAG.add_transformation, if_neg hc2,
        List.mem_append] at hp
      rcases hp with hp | hp
      · exact h.depsNodup p hp
      · simp only [List.mem_singleton] at hp
        rw [hp]
        exact List.nodup_nil

theorem WF_add_dependency (d d2 : TransformationDAG) (a b : String)
    (h : d.WF) (hok : d.add_dependency a b = .ok d2) : d2.WF := by
  rw [TransformationDAG.add_dependency] at hok
  by_cases h1 : a ∈ d.keys
  · by_cases h2 : b ∈ d.keys
    · rw [if_neg (by simp [h1]), if_neg (by simp [h2])] at hok
      cases hok
      constructor
      · have hkeys : (TransformationDAG.mk (d.deps.map (fun p =>
            if p.1 = a then
              (p.1, if p.2.contains b then p.2 else p.2 ++ [b])
            else p)) d.execOrder).keys = d.keys := by
          simp only [TransformationDAG.keys, List.map_map]
          apply List.map_congr_left
          intro p _
          by_cases hp : p.1 = a <;> simp [hp]
        rw [hkeys]
        exact h.keysNodup
      · intro p hp
        simp only [List.mem_map] at hp
        rcases hp with ⟨q, hq, hqp⟩
        by_cases hq1 : q.1 = a
        · rw [if_pos hq1] at hqp
          rw [← hqp]
          by_cases hqb : b ∈ q.2
          · rw [if_pos (show q.2.contains b = true by simpa using hqb)]
            exact h.depsNodup q hq
          · rw [if_neg (show ¬ q.2.contains b = true by simpa using hqb)]
            apply List.Nodup.append (h.depsNodup q hq) (by simp)
            intro x hx hx2
            simp only [List.mem_singleton] at hx2
            rw [hx2] at hx
            exact hqb hx
        · rw [if_neg hq1] at hqp
          rw [← hqp]
          exact h.depsNodup q hq
    · rw [if_neg (by simp [h1]), if_pos (by simp [h2])] at hok
      cases hok
  · rw [if_pos (by simp [h1])] at hok
    cases hok

theorem transGen_subsingle {α : Type} (r : α → α → Prop) (A B : α) (hne : A ≠ B)
    (hr : ∀ a b, r a b → a = A ∧ b = B) : ∀ n, ¬ Relation.TransGen r n n := by
  have hchain : ∀ x y, Relation.TransGen r x y → x = A ∧ y = B := by
    intro x y h
    induction h with
    | single h => exact hr _ _ h
    | tail _ hbc ih =>
      rcases hr _ _ hbc with ⟨hbA, hcB⟩
      exact absurd (hbA.symm.trans ih.2) hne
  intro n hn
  rcases hchain n n hn with ⟨h1, h2⟩
  exact hne (h1.symm.trans h2)

theorem acyclic_AB (e : List String) :
    (TransformationDAG.mk [("A", ["B"]), ("B", [])] e).Acyclic := by
  apply transGen_subsingle _ "A" "B" (by decide)
  intro a b hedge
  obtain ⟨h1, h2, _⟩ := hedge
  have ha : a = "A" ∨ a = "B" := by
    simpa [TransformationDAG.keys] using h2
  rcases ha with rfl | rfl
  · have hd : (TransformationDAG.mk [("A", ["B"]), ("B", [])] e).depsOf "A"
        = ["B"] := rfl
    rw [hd] at h1
    simp only [List.mem_singleton] at h1
    exact ⟨rfl, h1⟩
  · have hd : (TransformationDAG.mk [("A", ["B"]), ("B", [])] e).depsOf "B"
        = [] := rfl
    rw [hd] at h1
    simp at h1

/-! ## Claims C1 and C2 -/

/-- Claim C1 (code bug): the claim states that on a graph whose dependency
set contains a cycle `topological_sort` fails with a circular-dependency
error on every call.  The code caches the partial order built before raising
(`_execution_order` is assigned during the loop and kept when the
`ValueError` is raised), so a second call on the same unmutated cyclic graph
returns that partial order instead of failing: below, the graph with cycle
`A ↔ B` and independent node `C` raises on the first call, and the second
call returns `.ok ["C"]` even though the graph still contains the cycle. -/
theorem C1_cyclic_sort_not_always_failing :
    ((dagCycBase.add_dependency "A" "B").bind
      (fun d => d.add_dependency "B" "A")) = .ok dagCyc ∧
    "B" ∈ dagCyc.depsOf "A" ∧ "A" ∈ dagCyc.depsOf "B" ∧
    dagCyc.topological_sort.1 =
      .error "Circular dependency detected in transformation DAG" ∧
    dagCyc.topological_sort.2.deps = dagCyc.deps ∧
    (dagCyc.topological_sort.2).topological_sort.1 = .ok ["C"] := by
  refine ⟨rfl, ?_, ?_, rfl, rfl, rfl⟩
  · have : dagCyc.depsOf "A" = ["B"] := rfl
    rw [this]
    exact List.mem_singleton.mpr rfl
  · have : dagCyc.depsOf "B" = ["A"] := rfl
    rw [this]
    exact List.mem_singleton.mpr rfl

/-- Claim C2 counterexample: the claim asserts that after any interleaving of
`add_transformation` / `add_dependency` with sorts, the returned order puts
every dependency before its dependent, because any mutation invalidates the
cache.  `add_dependency` does not clear `_execution_order`: sorting `A, B`
(caching `["A", "B"]`), then adding the edge "A depends on B", then sorting
again returns the stale `["A", "B"]`, in which the dependency `"B"` appears
after its dependent `"A"` although the graph is acyclic. -/
theorem C2_counterexample_stale_cache_after_add_dependency :
    dagAB.topological_sort.1 = .ok ["A", "B"] ∧
    dagAB.topological_sort.2.add_dependency "A" "B" = .ok dagABstale ∧
    dagABstale.Acyclic ∧
    "B" ∈ dagABstale.depsOf "A" ∧
    dagABstale.execOrder = dagAB.topological_sort.2.execOrder ∧
    dagABstale.topological_sort.1 = .ok ["A", "B"] ∧
    ¬ List.indexOf "B" ["A", "B"] < List.indexOf "A" ["A", "B"] := by
  refine ⟨rfl, rfl, acyclic_AB _, ?_, rfl, rfl, by decide⟩
  have : dagABstale.depsOf "A" = ["B"] := rfl
  rw [this]
  exact List.mem_singleton.mpr rfl

/-- Claim C2 (amended): for every well-formed graph with an empty cached
order and acyclic dependency set, `topological_sort` succeeds with a
permutation of the node set in which every dependency appears strictly
before its dependent, and caches that order; `add_transformation`
invalidates the cached order, but `add_dependency` leaves it untouched, so
only sorts whose cache is clean are guaranteed to reflect edges added since
the previous sort. -/
theorem C2_topological_sort_amended :
    (∀ d : TransformationDAG, d.WF → d.execOrder = [] → d.Acyclic →
      ∃ res, d.topological_sort = (.ok res, { d with execOrder := res }) ∧
        res.Perm d.keys ∧
        ∀ (i j : Nat) (hi : i < res.length) (hj : j < res.length),
          res[i] ∈ d.depsOf res[j] → i < j) ∧
    (∀ (d : TransformationDAG) (tid : String),
      (d.add_transformation tid).execOrder = []) ∧
    (∀ (d d2 : TransformationDAG) (a b : String),
      d.add_dependency a b = .ok d2 → d2.execOrder = d.execOrder) :=
  ⟨fun d hwf hc ha => topological_sort_acyclic d hwf hc ha,
    add_transformation_clears_cache,
    add_dependency_keeps_cache⟩

/-- Witness for `C2_topological_sort_amended` at the concrete acyclic graph
`A depends on B`: the sort succeeds, the result is a permutation of the
nodes placing the dependency first, and `add_transformation` clears the
cache. -/
theorem C2_topological_sort_amended_witness :
    (∃ res, dagABdep.topological_sort =
        (.ok res, { dagABdep with execOrder := res }) ∧
      res.Perm dagABdep.keys ∧
      ∀ (i j : Nat) (hi : i < res.length) (hj : j < res.length),
        res[i] ∈ dagABdep.depsOf res[j] → i < j) ∧
    (dagABdep.add_transformation "Z").execOrder = [] :=
  ⟨C2_topological_sort_amended.1 dagABdep
      ⟨by decide, by decide⟩ rfl (acyclic_AB []),
    C2_topological_sort_amended.2.1 dagABdep "Z"⟩

/-! ## Claim C3: the executor's failure contract -/

/-- Claim C3: `TransformationExecutor.execute` is a total function (the
embedded `except Exception` arm means no applier failure escapes), and when
the dispatched applier fails with message `e` the returned result is exactly
`success=False`, the original input dataset, and `error_message = e`; when
the applier succeeds the result is `success=True` with its output. -/
theorem C3_execute_never_raises_failure_contract :
    ∀ (ops : ApplierOps) (ex : TransformationExecutor) (data : DataFrame)
      (t : Transformation),
      ((ex.execute ops data t).1.success = false →
        (ex.execute ops data t).1.output_data = data ∧
        (ex.execute ops data t).1.error_message ≠ none) ∧
      (∀ e, registryApply ops t.type t data = .error e →
        (ex.execute ops data t).1 =
          { transformation := t, success := false, output_data := data,
            error_message := some e, execution_time_ms := 0 }) ∧
      (∀ out, registryApply ops t.type t data = .ok out →
        (ex.execute ops data t).1.success = true ∧
        (ex.execute ops data t).1.output_data = out) := by
  intro ops ex data t
  cases happ : registryApply ops t.type t data with
  | ok out =>
    refine ⟨?_, ?_, ?_⟩
    · intro hs
      simp [TransformationExecutor.execute, happ] at hs
    · intro e he
      exact absurd he (by simp)
    · intro out2 hout
      have hoo : out = out2 := by simpa using hout
      rw [← hoo]
      simp [TransformationExecutor.execute, happ]
  | error e =>
    refine ⟨?_, ?_, ?_⟩
    · intro _
      simp [TransformationExecutor.execute, happ]
    · intro e2 he
      have hee : e = e2 := by simpa using he
      rw [← hee]
      simp [TransformationExecutor.execute, happ]
    · intro out hout
      exact absurd hout (by simp)

/-- Witness for `C3_execute_never_raises_failure_contract`: with an applier
bundle that raises "boom", executing a mean-fill on the empty dataset yields
the structured failure result carrying the original data and the message. -/
theorem C3_execute_witness :
    ((TransformationExecutor.mk []).execute opsFail dfEmpty tMeanFill).1 =
      { transformation := tMeanFill, success := false, output_data := dfEmpty,
        error_message := some "boom", execution_time_ms := 0 } :=
  (C3_execute_never_raises_failure_contract opsFail ⟨[]⟩ dfEmpty
    tMeanFill).2.1 "boom" rfl

/-! ## Claim C8: the generator/checker/executor reversibility mismatch -/

theorem mem_genFold (f : String → ColumnProfile → Nat → List Transformation × Nat) :
    ∀ (l : List (String × ColumnProfile)) (k : Nat) (t : Transformation),
      t ∈ (genFold f l k).1 →
      ∃ c cp k2, (c, cp) ∈ l ∧ t ∈ (f c cp k2).1
  | [], k, t => by simp [genFold]
  | (c, cp) :: tl, k, t => by
    intro h
    rw [genFold] at h
    rcases List.mem_append.mp h with h | h
    · exact ⟨c, cp, k, List.mem_cons_self _ _, h⟩
    · rcases mem_genFold f tl (f c cp k).2 t h with ⟨c2, cp2, k2, hmem, ht⟩
      exact ⟨c2, cp2, k2, List.mem_cons_of_mem _ hmem, ht⟩

/-- The shape shared by every fill-missing candidate. -/
def FillShape (t : Transformation) : Prop :=
  t.type = TransformationType.fill_missing ∧ t.reversible = true ∧
  (Params.getD t.params "strategy" (ParamValue.str "") = ParamValue.str "mean" ∨
   Params.getD t.params "strategy" (ParamValue.str "") = ParamValue.str "median" ∨
   Params.getD t.params "strategy" (ParamValue.str "") = ParamValue.str "mode" ∨
   Params.getD t.params "strategy" (ParamValue.str "") = ParamValue.str "constant")

/-- Every fill-missing candidate carries `reversible = True` and one of the
four strategies. -/
theorem fill_candidate_shape (uid : Nat → String) (col : String)
    (cp : ColumnProfile) (k : Nat) :
    ∀ t ∈ (fillMissingForColumn uid col cp k).1, FillShape t := by
  rw [fillMissingForColumn]
  by_cases h0 : cp.null_count > 0
  · rw [if_pos h0]
    by_cases hn : cp.inferred_type = "numeric"
    · rw [if_pos hn]
      cases hm : cp.mean with
      | some m =>
        simp only [hm]
        refine List.forall_mem_append.mpr
          ⟨List.forall_mem_append.mpr ⟨?_, ?_⟩, ?_⟩ <;>
          refine List.forall_mem_singleton.mpr ?_
        · exact ⟨rfl, rfl, Or.inl rfl⟩
        · exact ⟨rfl, rfl, Or.inr (Or.inl rfl)⟩
        · exact ⟨rfl, rfl, Or.inr (Or.inr (Or.inr rfl))⟩
      | none =>
        simp only [hm, List.nil_append]
        refine List.forall_mem_append.mpr ⟨?_, ?_⟩ <;>
          refine List.forall_mem_singleton.mpr ?_
        · exact ⟨rfl, rfl, Or.inr (Or.inl rfl)⟩
        · exact ⟨rfl, rfl, Or.inr (Or.inr (Or.inr rfl))⟩
    · rw [if_neg hn]
      by_cases hc : cp.inferred_type = "categorical"
      · rw [if_pos hc]
        refine List.forall_mem_append.mpr ⟨?_, ?_⟩ <;>
          refine List.forall_mem_singleton.mpr ?_
        · exact ⟨rfl, rfl, Or.inr (Or.inr (Or.inl rfl))⟩
        · exact ⟨rfl, rfl, Or.inr (Or.inr (Or.inr rfl))⟩
      · rw [if_neg hc]
        simp only [List.nil_append]
        refine List.forall_mem_singleton.mpr ?_
        exact ⟨rfl, rfl, Or.inr (Or.inr (Or.inr rfl))⟩
  · rw [if_neg h0]
    exact List.forall_mem_nil _

theorem normalize_candidate_type (uid : Nat → String) (col : String)
    (cp : ColumnProfile) (k : Nat) :
    ∀ t ∈ (normalizeForColumn uid col cp k).1,
      t.type = TransformationType.normalize := by
  rw [normalizeForColumn]
  by_cases hn : cp.inferred_type = "numeric"
  · rw [if_pos hn]
    cases hmin : cp.min_value with
    | some m =>
      cases hmax : cp.max_value with
      | some m2 =>
        simp only [hmin, hmax]
        refine List.forall_mem_append.mpr ⟨?_, ?_⟩ <;>
          exact List.forall_mem_singleton.mpr rfl
      | none =>
        simp only [hmin, hmax]
        exact List.forall_mem_singleton.mpr rfl
    | none =>
      cases hmax : cp.max_value with
      | some m2 =>
        simp only [hmin, hmax]
        exact List.forall_mem_singleton.mpr rfl
      | none =>
        simp only [hmin, hmax]
        exact List.forall_mem_singleton.mpr rfl
  · rw [if_neg hn]
    exact List.forall_mem_nil _

theorem encode_candidate_type (uid : Nat → String) (col : String)
    (cp : ColumnProfile) (k : Nat) :
    ∀ t ∈ (encodeForColumn uid col cp k).1,
      t.type = TransformationType.encode_categorical := by
  rw [encodeForColumn]
  by_cases hc : cp.inferred_type = "categorical"
  · rw [if_pos hc]
    exact List.forall_mem_cons.mpr ⟨rfl, List.forall_mem_singleton.mpr rfl⟩
  · rw [if_neg hc]
    exact List.forall_mem_nil _

theorem outliers_candidate_type (uid : Nat → String) (col : String)
    (cp : ColumnProfile) (k : Nat) :
    ∀ t ∈ (removeOutliersForColumn uid col cp k).1,
      t.type = TransformationType.remove_outliers := by
  rw [removeOutliersForColumn]
  by_cases hc : cp.inferred_type = "numeric" ∧ cp.std.isSome
  · rw [if_pos hc]
    exact List.forall_mem_cons.mpr ⟨rfl, List.forall_mem_singleton.mpr rfl⟩
  · rw [if_neg hc]
    exact List.forall_mem_nil _

theorem cast_candidate_type (uid : Nat → String) (col : String)
    (cp : ColumnProfile) (k : Nat) :
    ∀ t ∈ (castTypeForColumn uid col cp k).1,
      t.type = TransformationType.cast_type := by
  rw [castTypeForColumn]
  by_cases ht : cp.inferred_type = "text"
  · by_cases h0 : cp.inferred_type = "text" ∧ cp.null_count = 0
    · rw [if_pos ht, if_pos h0]
      refine List.forall_mem_append.mpr ⟨?_, ?_⟩ <;>
        exact List.forall_mem_singleton.mpr rfl
    · rw [if_pos ht, if_neg h0]
      exact List.forall_mem_singleton.mpr rfl
  · have h0 : ¬ (cp.inferred_type = "text" ∧ cp.null_count = 0) :=
      fun hh => ht hh.1
    rw [if_neg ht, if_neg h0]
    exact List.forall_mem_nil _

/-- Claim C8: every fill_missing transformation the candidate generator
produces carries `reversible = True` regardless of strategy; the
`ReversibilityChecker` classifies mean/median/mode fills as not reversible;
and `Executor.reverse`, gating only on the flag, lets a generated mean- or
median-fill past the "is not reversible" check — the call then surfaces the
fill applier's own unconditional `NotImplementedError` instead. -/
theorem C8_generated_fill_reversible_flag_mismatch :
    ∀ (uid : Nat → String) (profile : DataProfile) (t : Transformation),
      t ∈ generate_candidates uid profile →
      t.type = TransformationType.fill_missing →
      t.reversible = true ∧
      ((Params.getD t.params "strategy" (ParamValue.str "") = ParamValue.str "mean" ∨
        Params.getD t.params "strategy" (ParamValue.str "") = ParamValue.str "median" ∨
        Params.getD t.params "strategy" (ParamValue.str "") = ParamValue.str "mode") →
        ReversibilityChecker.is_reversible t = false) ∧
      (∀ (ops : ApplierOps) (ex : TransformationExecutor) (data : DataFrame),
        ex.reverse ops data t =
          .error ("Cannot reverse fill_missing transformation as " ++
            "original missing value positions are not preserved.") ∧
        ex.reverse ops data t ≠
          .error ("Transformation " ++ t.type.value ++ " is not reversible")) := by
  intro uid profile t hmem htype
  have hshape : t.reversible = true ∧
      (Params.getD t.params "strategy" (ParamValue.str "") = ParamValue.str "mean" ∨
       Params.getD t.params "strategy" (ParamValue.str "") = ParamValue.str "median" ∨
       Params.getD t.params "strategy" (ParamValue.str "") = ParamValue.str "mode" ∨
       Params.getD t.params "strategy" (ParamValue.str "") = ParamValue.str "constant") := by
    rw [generate_candidates] at hmem
    simp only [List.mem_append] at hmem
    rcases hmem with ((((h | h) | h) | h) | h) | h
    · rcases mem_genFold _ _ _ _ h with ⟨c, cp, k2, _, ht⟩
      exact (fill_candidate_shape uid c cp k2 t ht).2
    · rcases mem_genFold _ _ _ _ h with ⟨c, cp, k2, _, ht⟩
      rw [normalize_candidate_type uid c cp k2 t ht] at htype
      cases htype
    · rcases mem_genFold _ _ _ _ h with ⟨c, cp, k2, _, ht⟩
      rw [encode_candidate_type uid c cp k2 t ht] at htype
      cases htype
    · rcases mem_genFold _ _ _ _ h with ⟨c, cp, k2, _, ht⟩
      rw [outliers_candidate_type uid c cp k2 t ht] at htype
      cases htype
    · by_cases hd : profile.duplicate_rows > 0
      · rw [if_pos hd] at h
        simp only [List.mem_singleton] at h
        rw [h] at htype
        cases htype
      · rw [if_neg hd] at h
        simp at h
    · rcases mem_genFold _ _ _ _ h with ⟨c, cp, k2, _, ht⟩
      rw [cast_candidate_type uid c cp k2 t ht] at htype
      cases htype
  refine ⟨hshape.1, ?_, ?_⟩
  · intro hstrat
    rw [ReversibilityChecker.is_reversible,
      if_neg (by rw [htype]; intro hcon; rcases hcon with h | h | h <;> cases h),
      if_neg (by rw [htype]; intro hcon; rcases hcon with h | h <;> cases h),
      if_pos htype, ReversibilityChecker.check_conditional, if_pos htype]
    rcases hstrat with h | h | h <;> (rw [h]; decide)
  · intro ops ex data
    have hrev : ¬ ¬ t.reversible = true := by
      rw [hshape.1]
      simp
    constructor
    · rw [TransformationExecutor.reverse, if_neg hrev, htype]
      rfl
    · rw [TransformationExecutor.reverse, if_neg hrev, htype]
      intro hcon
      have hmsg : ("Cannot reverse fill_missing transformation as " ++
          "original missing value positions are not preserved.") =
          ("Transformation " ++ TransformationType.value
            TransformationType.fill_missing ++ " is not reversible") := by
        simpa [registryReverse, fillMissingReverse] using hcon
      exact absurd hmsg (by decide)

/-- Witness for `C8_generated_fill_reversible_flag_mismatch` at the concrete
one-column numeric profile: the generated mean-fill candidate has the flag
set, the checker rejects it, and the executor's reverse surfaces the fill
applier's error rather than the flag-gate error. -/
theorem C8_generated_fill_witness :
    tGenMean.reversible = true ∧
    ReversibilityChecker.is_reversible tGenMean = false ∧
    (TransformationExecutor.mk []).reverse opsFail dfEmpty tGenMean =
      .error ("Cannot reverse fill_missing transformation as " ++
        "original missing value positions are not preserved.") := by
  have h := C8_generated_fill_reversible_flag_mismatch uidDefault profileAge
    tGenMean (by decide) (by decide)
  exact ⟨h.1, h.2.1 (Or.inl (by decide)),
    (h.2.2 opsFail ⟨[]⟩ dfEmpty).1⟩

/-! ## Claim C4: the ranker's ordering contract -/

/-- The comparison `RankingService.rank` sorts with is transitive. -/
theorem rankLe_trans (a b c : TransformationCandidate × (ℚ × String))
    (h1 : decide (b.2.1 ≤ a.2.1) = true) (h2 : decide (c.2.1 ≤ b.2.1) = true) :
    decide (c.2.1 ≤ a.2.1) = true := by
  simp only [decide_eq_true_eq] at h1 h2 ⊢
  exact le_trans h2 h1

/-- The comparison `RankingService.rank` sorts with is total. -/
theorem rankLe_total (a b : TransformationCandidate × (ℚ × String)) :
    (decide (b.2.1 ≤ a.2.1) || decide (a.2.1 ≤ b.2.1)) = true := by
  rcases le_total a.2.1 b.2.1 with h | h <;> simp [h]

/-- Claim C4: `rank` fails with the "no policy set" error when no policy is
attached; the empty candidate list yields the empty list; and a non-empty
input yields a list sorted by `composite_score` descending with the 1-based
contiguous ranks `1..N` assigned in that order, equal-score candidates kept
in their original input order. -/
theorem C4_rank_sorted_ranked_stable :
    ∀ (policy : RankingPolicy) (cs : List TransformationCandidate),
      (RankingService.rank none cs =
        .error "No ranking policy set. Use set_policy() first.") ∧
      RankingService.rank (some policy) [] = .ok [] ∧
      (cs ≠ [] → ∃ out, RankingService.rank (some policy) cs = .ok out ∧
        out.length = cs.length ∧
        out.map RankedTransformation.rank = List.range' 1 cs.length ∧
        List.Pairwise
          (fun a b : RankedTransformation =>
            b.composite_score ≤ a.composite_score) out ∧
        (cs.Nodup → ∀ (i j : Nat) (hi : i < out.length) (hj : j < out.length),
          i < j →
          (out[i]).composite_score = (out[j]).composite_score →
          ∃ (p q : Nat) (hp : p < cs.length) (hq : q < cs.length), p < q ∧
            cs[p] = (out[i]).candidate ∧ cs[q] = (out[j]).candidate)) := by
  intro policy cs
  refine ⟨rfl, rfl, ?_⟩
  intro hne
  simp only [RankingService.rank]
  rw [if_neg hne]
  set f : TransformationCandidate → TransformationCandidate × (ℚ × String) :=
    fun c => (c, score_with_reasoning policy c) with hfdef
  set le : TransformationCandidate × (ℚ × String) →
      TransformationCandidate × (ℚ × String) → Bool :=
    fun x y => decide (y.2.1 ≤ x.2.1) with hledef
  set sorted := (cs.map f).mergeSort le with hsorteddef
  set g : Nat × (TransformationCandidate × (ℚ × String)) → RankedTransformation :=
    fun p => { rank := p.1, candidate := p.2.1, composite_score := p.2.2.1,
               reasoning := p.2.2.2 } with hgdef
  have hsortlen : sorted.length = cs.length := by
    rw [hsorteddef, List.length_mergeSort, List.length_map]
  have houtlen : ((sorted.enumFrom 1).map g).length = cs.length := by
    rw [List.length_map, List.enumFrom_length, hsortlen]
  have hgetOut : ∀ (i : Nat) (hi : i < cs.length) (hb : i < ((sorted.enumFrom 1).map g).length)
      (hs : i < sorted.length),
      ((sorted.enumFrom 1).map g)[i] = g (1 + i, sorted[i]) := by
    intro i hi hb hs
    rw [List.getElem_map, List.getElem_enumFrom]
  refine ⟨(sorted.enumFrom 1).map g, rfl, houtlen, ?_, ?_, ?_⟩
  · -- ranks are 1..N in order
    apply List.ext_getElem
    · rw [List.length_map, houtlen, List.length_range']
    · intro i h1 h2
      have hi : i < cs.length := by
        rw [List.length_map, houtlen] at h1
        exact h1
      have hb : i < ((sorted.enumFrom 1).map g).length := by rw [houtlen]; exact hi
      have hs : i < sorted.length := by rw [hsortlen]; exact hi
      rw [List.getElem_map, hgetOut i hi hb hs, List.getElem_range']
      simp [hgdef]
  · -- sorted descending by composite_score
    have hps := List.sorted_mergeSort rankLe_trans rankLe_total (cs.map f)
    rw [← hsorteddef] at hps
    apply List.pairwise_iff_getElem.mpr
    intro i j h1 h2 hij
    have hi : i < cs.length := by rw [houtlen] at h1; exact h1
    have hj : j < cs.length := by rw [houtlen] at h2; exact h2
    have hsi : i < sorted.length := by rw [hsortlen]; exact hi
    have hsj : j < sorted.length := by rw [hsortlen]; exact hj
    rw [hgetOut i hi h1 hsi, hgetOut j hj h2 hsj]
    have := List.pairwise_iff_getElem.mp hps i j hsi hsj hij
    simp only [hledef, decide_eq_true_eq] at this
    simpa [hgdef] using this
  · -- stability on ties
    intro hnd i j h1 h2 hij hsc
    have hi : i < cs.length := by rw [houtlen] at h1; exact h1
    have hj : j < cs.length := by rw [houtlen] at h2; exact h2
    have hsi : i < sorted.length := by rw [hsortlen]; exact hi
    have hsj : j < sorted.length := by rw [hsortlen]; exact hj
    rw [hgetOut i hi h1 hsi, hgetOut j hj h2 hsj] at hsc ⊢
    simp only [hgdef] at hsc ⊢
    -- positions of the two sorted entries inside `scored`
    have hndScored : (cs.map f).Nodup := by
      apply List.Nodup.map ?_ hnd
      intro a b hab
      exact congrArg Prod.fst hab
    have hperm : sorted.Perm (cs.map f) := by
      rw [hsorteddef]
      exact List.mergeSort_perm (cs.map f) le
    have hndSorted : sorted.Nodup := hperm.nodup_iff.mpr hndScored
    have hmemi : sorted[i] ∈ cs.map f := hperm.mem_iff.mp (List.getElem_mem hsi)
    have hmemj : sorted[j] ∈ cs.map f := hperm.mem_iff.mp (List.getElem_mem hsj)
    rcases List.mem_iff_getElem.mp hmemi with ⟨p, hp, hpe⟩
    rcases List.mem_iff_getElem.mp hmemj with ⟨q, hq, hqe⟩
    have hpcs : p < cs.length := by rw [List.length_map] at hp; exact hp
    have hqcs : q < cs.length := by rw [List.length_map] at hq; exact hq
    have hpfst : cs[p] = sorted[i].1 := by
      rw [← hpe, List.getElem_map]
    have hqfst : cs[q] = sorted[j].1 := by
      rw [← hqe, List.getElem_map]
    have hneq : sorted[i] ≠ sorted[j] := by
      intro hcon
      have := (hndSorted.getElem_inj_iff).mp hcon
      omega
    have hpq : p ≠ q := by
      intro hcon
      subst hcon
      exact hneq (hpe.symm.trans hqe)
    rcases Nat.lt_or_ge p q with hlt | hge
    · exact ⟨p, q, hpcs, hqcs, hlt, hpfst, hqfst⟩
    · exfalso
      have hqp : q < p := by omega
      -- the pair [sorted[j], sorted[i]] is a tied sublist of scored
      have hsub : [sorted[j], sorted[i]].Sublist (cs.map f) := by
        have his : ([⟨q, hq⟩, ⟨p, hp⟩] : List (Fin (cs.map f).length)).Pairwise
            (fun a b : Fin (cs.map f).length => a < b) := by
          simp [hqp]
        have hms := List.map_getElem_sublist his
        simp only [List.map_cons, List.map_nil, Fin.getElem_fin] at hms
        rw [← hqe, ← hpe]
        exact hms
      have hletie : le sorted[j] sorted[i] = true := by
        simp only [hledef, decide_eq_true_eq]
        exact le_of_eq hsc
      have hsub2 : [sorted[j], sorted[i]].Sublist sorted :=
        List.pair_sublist_mergeSort rankLe_trans rankLe_total hletie hsub
      rcases List.sublist_eq_map_getElem hsub2 with ⟨is, hmapeq, hispair⟩
      cases is with
      | nil => simp at hmapeq
      | cons a tl =>
        cases tl with
        | nil => simp at hmapeq
        | cons b tl2 =>
          cases tl2 with
          | cons c tl3 => simp at hmapeq
          | nil =>
            simp only [List.map_cons, List.map_nil, List.cons.injEq,
              and_true] at hmapeq
            have hab : (a : Nat) < (b : Nat) := by
              have := List.pairwise_cons.mp hispair
              exact this.1 b (List.mem_singleton.mpr rfl)
            have haj : (a : Nat) = j := by
              apply (hndSorted.getElem_inj_iff).mp
              simpa using hmapeq.1.symm
            have hbi : (b : Nat) = i := by
              apply (hndSorted.getElem_inj_iff).mp
              simpa using hmapeq.2.symm
            omega

/-- Witness for `C4_rank_sorted_ranked_stable` at a singleton candidate list
under the constant-zero policy. -/
theorem C4_rank_witness :
    (RankingService.rank none [cand1] =
      .error "No ranking policy set. Use set_policy() first.") ∧
    RankingService.rank (some pZero) [] = .ok [] ∧
    (∃ out, RankingService.rank (some pZero) [cand1] = .ok out ∧
      out.length = [cand1].length ∧
      out.map RankedTransformation.rank = List.range' 1 [cand1].length ∧
      List.Pairwise
        (fun a b : RankedTransformation =>
          b.composite_score ≤ a.composite_score) out ∧
      ([cand1].Nodup → ∀ (i j : Nat) (hi : i < out.length) (hj : j < out.length),
        i < j →
        (out[i]).composite_score = (out[j]).composite_score →
        ∃ (p q : Nat) (hp : p < [cand1].length) (hq : q < [cand1].length),
          p < q ∧ [cand1][p] = (out[i]).candidate ∧
          [cand1][q] = (out[j]).candidate)) := by
  exact ⟨(C4_rank_sorted_ranked_stable pZero [cand1]).1,
    (C4_rank_sorted_ranked_stable pZero [cand1]).2.1,
    (C4_rank_sorted_ranked_stable pZero [cand1]).2.2 (by simp)⟩

/-! ## State manager round-trip (C5) -/

theorem find?_overwrite (l : List (String × StateDoc)) (fname : String)
    (doc : StateDoc) (h : fname ∈ l.map Prod.fst) :
    (l.map (fun p => if p.1 = fname then (fname, doc) else p)).find?
      (fun p => p.1 = fname) = some (fname, doc) := by
  induction l with
  | nil => simp at h
  | cons hd tl ih =>
    by_cases hh : hd.1 = fname
    · rw [List.map_cons, if_pos hh, List.find?_cons_of_pos _ (by simp)]
    · rw [List.map_cons, if_neg hh, List.find?_cons_of_neg _ (by simp [hh])]
      apply ih
      simp only [List.map_cons, List.mem_cons] at h
      rcases h with h | h
      · exact absurd h.symm hh
      · exact h

theorem find?_append_new (l : List (String × StateDoc)) (fname : String)
    (doc : StateDoc) (h : fname ∉ l.map Prod.fst) :
    (l ++ [(fname, doc)]).find? (fun p => p.1 = fname) =
      some (fname, doc) := by
  induction l with
  | nil =>
    rw [List.nil_append, List.find?_cons_of_pos _ (by simp)]
  | cons hd tl ih =>
    simp only [List.map_cons, List.mem_cons, not_or] at h
    have hne : hd.1 ≠ fname := fun he => h.1 he.symm
    rw [List.cons_append, List.find?_cons_of_neg _ (by simp [hne])]
    exact ih (by simpa using h.2)

theorem readFile_writeFile (sm : StateManager) (fname : String)
    (doc : StateDoc) :
    (sm.writeFile fname doc).readFile fname = some doc := by
  by_cases h : fname ∈ sm.files.map Prod.fst
  · have heq : sm.writeFile fname doc =
        ⟨sm.files.map (fun p => if p.1 = fname then (fname, doc) else p)⟩ := by
      unfold StateManager.writeFile
      rw [if_pos (by simpa using h)]
    rw [heq]
    show ((sm.files.map
        (fun p => if p.1 = fname then (fname, doc) else p)).find?
      (fun p => p.1 = fname)).map Prod.snd = some doc
    rw [find?_overwrite sm.files fname doc h]
    rfl
  · have heq : sm.writeFile fname doc = ⟨sm.files ++ [(fname, doc)]⟩ := by
      unfold StateManager.writeFile
      rw [if_neg (by simpa using h)]
    rw [heq]
    show ((sm.files ++ [(fname, doc)]).find?
      (fun p => p.1 = fname)).map Prod.snd = some doc
    rw [find?_append_new sm.files fname doc h]
    rfl

theorem ofValue_value (s : PipelineStep) :
    PipelineStep.ofValue s.value = some s := by
  cases s <;> rfl

theorem mapM_decode_encode {α β : Type} (enc : α → β) (dec : β → Option α)
    (l : List α) (h : ∀ a ∈ l, dec (enc a) = some a) :
    (l.map enc).mapM dec = some l := by
  induction l with
  | nil => rfl
  | cons hd tl ih =>
    rw [List.map_cons, List.mapM_cons, h hd (List.mem_cons_self hd tl),
      ih (fun a ha => h a (List.mem_cons_of_mem hd ha))]
    rfl

theorem decodeStateDoc_encodeState (cd : PydanticCodec)
    (state : PipelineState) (now : String) (hrt : cd.RoundTripOn state) :
    decodeStateDoc cd (encodeState cd state now) = .ok state := by
  obtain ⟨cur, comp, dp, cands, rts, err⟩ := state
  simp only [decodeStateDoc, encodeState]
  rw [ofValue_value cur,
    mapM_decode_encode PipelineStep.value PipelineStep.ofValue comp
      (fun a _ => ofValue_value a),
    mapM_decode_encode cd.candDump cd.candValidate cands hrt.cand,
    mapM_decode_encode cd.rankedDump cd.rankedValidate rts hrt.ranked]
  cases dp with
  | none => rfl
  | some p =>
    simp only [Option.map_some']
    rw [if_neg (hrt.profNonempty p rfl), hrt.prof p rfl]
    rfl

/-- Claim C5: saving any pipeline state and loading it back under the same
name returns exactly the saved state — same current step, completed steps
in the same order, same profile, candidates, ranked transformations
(including rank and composite score) and error — for every pydantic codec
that honours the serializer round-trip contract on the state's payloads. -/
theorem C5_save_load_roundtrip (cd : PydanticCodec) (state : PipelineState)
    (hrt : cd.RoundTripOn state) (sm : StateManager) (name now : String) :
    StateManager.load_state cd
      (StateManager.save_state cd sm state name now) name =
      .ok (some state) := by
  unfold StateManager.load_state StateManager.save_state
  rw [readFile_writeFile sm (name ++ "_state.json")
    (encodeState cd state now)]
  show (decodeStateDoc cd (encodeState cd state now)).map some =
    .ok (some state)
  rw [decodeStateDoc_encodeState cd state now hrt]
  rfl

/-- Witness for `C5_save_load_roundtrip`: the concrete codec `cdWitness`
round-trips on `stateWitness`, and save-then-load on the empty state
directory returns that state. -/
theorem C5_save_load_roundtrip_witness :
    StateManager.load_state cdWitness
      (StateManager.save_state cdWitness smEmpty stateWitness "default"
        "2024-01-01T00:00:00") "default" = .ok (some stateWitness) :=
  C5_save_load_roundtrip cdWitness stateWitness
    ⟨fun p hp => by injection hp with h; rw [← h]; rfl,
     fun p hp => by show ("p" : String) ≠ ""; decide,
     fun c hc => by
       simp only [stateWitness, List.mem_singleton] at hc
       subst hc; rfl,
     fun r hr => by simp [stateWitness] at hr⟩
    smEmpty "default" "2024-01-01T00:00:00"

/-! ## Completeness metric (C6) -/

theorem sumFilterLen_le (cols : Nat) (rows : List (List Cell))
    (h : ∀ r ∈ rows, r.length = cols) :
    (rows.map (fun r => (r.filter (fun c => c.isSome)).length)).sum ≤
      rows.length * cols := by
  induction rows with
  | nil => simp
  | cons hd tl ih =>
    simp only [List.map_cons, List.sum_cons, List.length_cons]
    have h1 : (hd.filter (fun c => c.isSome)).length ≤ hd.length :=
      List.length_filter_le _ _
    have h2 := ih (fun r hr => h r (List.mem_cons_of_mem hd hr))
    have h3 : hd.length = cols := h hd (List.mem_cons_self hd tl)
    rw [Nat.add_mul]
    omega

theorem nonNullCount_le_size (df : DataFrame) (h : df.Rect) :
    df.nonNullCount ≤ df.size :=
  sumFilterLen_le df.cols.length df.rows h

theorem clamp_score_of_mem (q : ℚ) (h0 : 0 ≤ q) (h1 : q ≤ 1) :
    clamp_score q = q := by
  unfold clamp_score
  rw [min_eq_right h1, max_eq_right h0]

theorem size_def (df : DataFrame) :
    df.size = df.rows.length * df.cols.length := rfl

/-- Claim C6 (amended): on a rectangular dataset of at most 50000 rows —
where the sampling branch is not taken — the completeness metric equals
the non-null cell count over the total cell count, and it is 1 on an
empty dataset.  Above 50000 rows the metric is instead computed on a
10000-row sample (see `C6_counterexample_sampling_large_frame`). -/
theorem C6_completeness_amended (sampler : DataFrame → Nat → DataFrame)
    (data : DataFrame) (hrect : data.Rect)
    (hrows : data.rows.length ≤ 50000) :
    CompletenessMetric.calculate sampler data = specCompleteness data ∧
    (data.isEmpty → CompletenessMetric.calculate sampler data = 1) := by
  constructor
  · simp only [CompletenessMetric.calculate, specCompleteness]
    by_cases he : data.isEmpty
    · rw [if_pos he, if_pos he]
    · rw [if_neg he, if_neg he,
        if_neg (show ¬ data.rows.length > 50000 from by omega)]
      by_cases hz : data.size = 0
      · rw [if_pos hz, if_pos hz]
      · rw [if_neg hz, if_neg hz]
        have hpos : (0 : ℚ) < (data.size : ℚ) := by
          exact_mod_cast Nat.pos_of_ne_zero hz
        apply clamp_score_of_mem
        · exact div_nonneg (Nat.cast_nonneg _) (Nat.cast_nonneg _)
        · rw [div_le_one hpos]
          exact_mod_cast nonNullCount_le_size data hrect
  · intro he
    simp only [CompletenessMetric.calculate, if_pos he]

/-- Counterexample to the unqualified C6: on a 50001-row frame with one
missing cell, an admissible sample draw (the first 10000 rows) makes the
metric return 1, while the spec's non-null/total value is 50000/50001. -/
theorem C6_counterexample_sampling_large_frame :
    SampleAdmissible samplerTake ∧
    CompletenessMetric.calculate samplerTake dfBig ≠
      specCompleteness dfBig := by
  have hlen : dfBig.rows.length = 50001 := by
    rw [show dfBig.rows =
        List.replicate 50000 [some (Value.num 1)] ++ [[none]] from rfl,
      List.length_append, List.length_replicate]
    norm_num
  have hne : ¬ dfBig.isEmpty := by
    intro h
    rcases h with h | h
    · have h0 : dfBig.rows.length = 0 := by rw [h]; rfl
      rw [hlen] at h0
      exact absurd h0 (by norm_num)
    · have hc : (["c"] : List String) = [] := h
      exact absurd hc (by simp)
  constructor
  · refine ⟨fun df k => rfl, fun df k hk => ?_, fun df k => ?_⟩
    · show (df.rows.take k).length = k
      rw [List.length_take]
      omega
    · exact (List.take_sublist k df.rows).subperm
  · have htake : dfBig.rows.take 10000 =
        List.replicate 10000 [some (Value.num 1)] := by
      show (List.replicate 50000 [some (Value.num 1)] ++
        [[none]]).take 10000 = _
      rw [List.take_append_of_le_length
          (by rw [List.length_replicate]; norm_num),
        List.take_replicate, show min 10000 50000 = 10000 from by norm_num]
    have hmin : min 10000 (50001 : Nat) = 10000 := by omega
    have hsrc : samplerTake dfBig (min 10000 dfBig.rows.length) =
        DataFrame.mk ["c"] (List.replicate 10000 [some (Value.num 1)]) := by
      unfold samplerTake
      rw [hlen, hmin, show dfBig.cols = ["c"] from rfl, htake]
    have hsize : (DataFrame.mk ["c"]
        (List.replicate 10000 [some (Value.num 1)])).size = 10000 := by
      rw [size_def,
        show (DataFrame.mk ["c"]
            (List.replicate 10000 [some (Value.num 1)])).rows =
          List.replicate 10000 [some (Value.num 1)] from rfl,
        show (DataFrame.mk ["c"]
            (List.replicate 10000 [some (Value.num 1)])).cols =
          ["c"] from rfl,
        List.length_replicate]
      norm_num
    have hnn : (DataFrame.mk ["c"]
        (List.replicate 10000 [some (Value.num 1)])).nonNullCount =
        10000 := by
      show ((DataFrame.mk ["c"]
          (List.replicate 10000 [some (Value.num 1)])).rows.map
        (fun r => (r.filter (fun c => c.isSome)).length)).sum = 10000
      rw [show (DataFrame.mk ["c"]
            (List.replicate 10000 [some (Value.num 1)])).rows =
          List.replicate 10000 [some (Value.num 1)] from rfl,
        List.map_replicate, List.sum_replicate, smul_eq_mul]
      norm_num [List.filter]
    have hcalc : CompletenessMetric.calculate samplerTake dfBig = 1 := by
      simp only [CompletenessMetric.calculate]
      rw [if_neg hne,
        if_pos (show dfBig.rows.length > 50000 from by rw [hlen]; norm_num),
        hsrc, if_neg (by rw [hsize]; norm_num), hsize, hnn]
      norm_num [clamp_score]
    have hsz : dfBig.size = 50001 := by
      rw [size_def, hlen, show dfBig.cols = ["c"] from rfl]
      norm_num
    have hnn2 : dfBig.nonNullCount = 50000 := by
      show (dfBig.rows.map
        (fun r => (r.filter (fun c => c.isSome)).length)).sum = 50000
      rw [show dfBig.rows =
          List.replicate 50000 [some (Value.num 1)] ++ [[none]] from rfl,
        List.map_append, List.sum_append, List.map_replicate,
        List.sum_replicate]
      norm_num [smul_eq_mul, List.filter]
    have hspec : specCompleteness dfBig = 50000 / 50001 := by
      simp only [specCompleteness]
      rw [if_neg hne, if_neg (by rw [hsz]; norm_num), hsz, hnn2]
      norm_num
    rw [hcalc, hspec]
    norm_num

/-- Witness for `C6_completeness_amended` at a small concrete frame with
one missing cell out of four. -/
theorem C6_completeness_amended_witness :
    dfWit.Rect ∧ dfWit.rows.length ≤ 50000 ∧
    (CompletenessMetric.calculate samplerTake dfWit =
        specCompleteness dfWit ∧
      (dfWit.isEmpty →
        CompletenessMetric.calculate samplerTake dfWit = 1)) :=
  ⟨by decide, by decide,
   C6_completeness_amended samplerTake dfWit (by decide) (by decide)⟩

/-! ## Leakage detection (C7) -/

/-- Claim C7: the claim says an error-severity `EXACT_ROW_LEAKAGE` issue
is reported exactly when the overlap ratio exceeds the configured
threshold.  In the code the configured threshold is never read:
`check_exact_row_leakage` is the same function for every threshold, and
with the service's default threshold 0.1 a pair of equal-length 10-row
frames with overlap ratio 3/10 > 0.1 yields no leakage flag and no
issue — the code compares against a hardcoded 0.5. -/
theorem C7_exact_row_leakage_threshold_ignored :
    (∀ (t₁ t₂ : ℚ) (o tr : DataFrame),
      (LeakageDetector.mk t₁).check_exact_row_leakage o tr =
        (LeakageDetector.mk t₂).check_exact_row_leakage o tr) ∧
    dfOrig10.rows.length = dfTrans10.rows.length ∧
    overlapFrac dfOrig10 dfTrans10 = 3/10 ∧
    defaultLeakageThreshold = 1/10 ∧
    overlapFrac dfOrig10 dfTrans10 > defaultLeakageThreshold ∧
    LeakageDetector.check_leakage
      (ValidationService.leakage_detector defaultLeakageThreshold)
      (fun _ _ _ => []) (fun _ _ _ => []) dfOrig10 dfTrans10 none =
      (false, []) := by
  have hlen3 :
      (dfOrig10.rows.dedup.inter dfTrans10.rows.dedup).length = 3 := by
    decide
  have hlen10 : dfTrans10.rows.dedup.length = 10 := by decide
  have hof : overlapFrac dfOrig10 dfTrans10 = 3/10 := by
    unfold overlapFrac
    rw [hlen3, hlen10]
    norm_num
  have hchk : LeakageDetector.check_exact_row_leakage
      (ValidationService.leakage_detector defaultLeakageThreshold)
      dfOrig10 dfTrans10 = false := by
    unfold LeakageDetector.check_exact_row_leakage
    rw [if_neg (by decide), if_pos (by decide),
      if_neg (by rw [hof]; norm_num [defaultLeakageThreshold])]
  refine ⟨fun _ _ _ _ => rfl, by decide, hof, rfl, ?_, ?_⟩
  · rw [hof]
    norm_num [defaultLeakageThreshold]
  · unfold LeakageDetector.check_leakage
    rw [hchk]
    rfl

/-! ## Pipeline orchestration (C9) -/

theorem execute_profiling_fields (co : AgentCoordinator)
    (data : DataFrame) (st s : PipelineState)
    (h : PipelineManager.execute_profiling co data st = .ok s) :
    s.completed_steps = st.completed_steps ++ [PipelineStep.PROFILING] ∧
    s.current_step = PipelineStep.GENERATION ∧
    s.candidates = st.candidates := by
  unfold PipelineManager.execute_profiling at h
  cases hp : co.profiler data with
  | error e => rw [hp] at h; simp at h
  | ok p =>
    rw [hp] at h
    cases h
    exact ⟨rfl, rfl, rfl⟩

theorem execute_candidate_generation_fields (co : AgentCoordinator)
    (st s : PipelineState)
    (h : PipelineManager.execute_candidate_generation co st = .ok s) :
    s.completed_steps = st.completed_steps ++ [PipelineStep.GENERATION] ∧
    s.current_step = PipelineStep.VALIDATION ∧
    s.candidates = st.candidates := by
  unfold PipelineManager.execute_candidate_generation at h
  split at h
  · simp at h
  · split at h
    · simp at h
    · cases h
      exact ⟨rfl, rfl, rfl⟩

theorem execute_validation_and_scoring_fields (co : AgentCoordinator)
    (data : DataFrame) (st s : PipelineState)
    (h : PipelineManager.execute_validation_and_scoring co data st =
      .ok s) :
    s.completed_steps = st.completed_steps ++ [PipelineStep.VALIDATION] ∧
    s.current_step = PipelineStep.RANKING := by
  unfold PipelineManager.execute_validation_and_scoring at h
  split at h
  · simp at h
  · split at h
    · simp at h
    · cases h
      exact ⟨rfl, rfl⟩

theorem execute_ranking_fields (co : AgentCoordinator)
    (st s : PipelineState)
    (h : PipelineManager.execute_ranking co st = .ok s) :
    s.completed_steps = (if st.candidates = [] then st.completed_steps
      else st.completed_steps ++ [PipelineStep.RANKING]) ∧
    s.current_step = st.current_step ∧
    s.candidates = st.candidates := by
  unfold PipelineManager.execute_ranking at h
  by_cases hc : st.candidates = []
  · rw [if_pos hc] at h
    cases h
    refine ⟨?_, rfl, rfl⟩
    rw [if_pos hc]
  · rw [if_neg hc] at h
    cases hr : co.ranking st.candidates with
    | error e => rw [hr] at h; simp at h
    | ok ranked =>
      rw [hr] at h
      cases h
      refine ⟨?_, rfl, rfl⟩
      rw [if_neg hc]

theorem stepsOk_of (s : PipelineState) (l : List PipelineStep)
    (c : PipelineStep) (hcs : s.completed_steps = l)
    (hcur : s.current_step = c)
    (h : PipelineStep.EXECUTION ∉ l ∧ PipelineStep.SCORING ∉ l ∧
      c ≠ PipelineStep.EXECUTION ∧ c ≠ PipelineStep.SCORING) :
    StepsOk s := by
  unfold StepsOk
  rw [hcs, hcur]
  exact h

theorem stepsOk_errState (s : PipelineState) (e : String)
    (h : StepsOk s) : StepsOk (errState s e) := h

/-- Claim C9 (amended): the orchestrator never produces `EXECUTION` or
`SCORING`, in any checkpointed state's completed steps or current step;
after a successful run with ranking enabled, the final checkpoint's
completed steps are exactly `[PROFILING, GENERATION, VALIDATION,
RANKING]` in that order when at least one candidate survived validation —
with no surviving candidate, `_execute_ranking` returns early and the
final checkpoint ends at `[PROFILING, GENERATION, VALIDATION]`. -/
theorem C9_run_steps_amended (co : AgentCoordinator) (data : DataFrame)
    (er : Bool) :
    (∀ s ∈ (PipelineManager.run co data er).2, StepsOk s) ∧
    ((PipelineManager.run co data er).1.success = true → er = true →
      ∀ s, (PipelineManager.run co data er).2.getLast? = some s →
        (s.candidates ≠ [] →
          s.completed_steps = [PipelineStep.PROFILING,
            PipelineStep.GENERATION, PipelineStep.VALIDATION,
            PipelineStep.RANKING]) ∧
        (s.candidates = [] →
          s.completed_steps = [PipelineStep.PROFILING,
            PipelineStep.GENERATION, PipelineStep.VALIDATION])) := by
  have hok0 : StepsOk initPipelineState :=
    stepsOk_of _ [] PipelineStep.PROFILING rfl rfl (by decide)
  cases hp : PipelineManager.execute_profiling co data initPipelineState with
  | error e =>
    simp only [PipelineManager.run, hp]
    constructor
    · intro s hs
      rw [List.mem_singleton] at hs
      subst hs
      exact stepsOk_errState _ _ hok0
    · intro hsucc
      simp [failRes] at hsucc
  | ok s1 =>
    obtain ⟨h1c, h1cur, _⟩ := execute_profiling_fields co data _ s1 hp
    have h1c' : s1.completed_steps = [PipelineStep.PROFILING] := by
      rw [h1c]
      rfl
    have hok1 : StepsOk s1 := stepsOk_of s1 _ _ h1c' h1cur (by decide)
    cases hg : PipelineManager.execute_candidate_generation co s1 with
    | error e =>
      simp only [PipelineManager.run, hp, hg]
      constructor
      · intro s hs
        rw [List.mem_cons, List.mem_singleton] at hs
        rcases hs with hs | hs <;> subst hs
        · exact hok1
        · exact stepsOk_errState _ _ hok1
      · intro hsucc
        simp [failRes] at hsucc
    | ok s2 =>
      obtain ⟨h2c, h2cur, _⟩ := execute_candidate_generation_fields co s1 s2 hg
      have h2c' : s2.completed_steps =
          [PipelineStep.PROFILING, PipelineStep.GENERATION] := by
        rw [h2c, h1c']
        rfl
      have hok2 : StepsOk s2 := stepsOk_of s2 _ _ h2c' h2cur (by decide)
      cases hv : PipelineManager.execute_validation_and_scoring co data s2 with
      | error e =>
        simp only [PipelineManager.run, hp, hg, hv]
        constructor
        · intro s hs
          rw [List.mem_cons, List.mem_cons, List.mem_singleton] at hs
          rcases hs with hs | hs | hs <;> subst hs
          · exact hok1
          · exact hok2
          · exact stepsOk_errState _ _ hok2
        · intro hsucc
          simp [failRes] at hsucc
      | ok s3 =>
        obtain ⟨h3c, h3cur⟩ :=
          execute_validation_and_scoring_fields co data s2 s3 hv
        have h3c' : s3.completed_steps = [PipelineStep.PROFILING,
            PipelineStep.GENERATION, PipelineStep.VALIDATION] := by
          rw [h3c, h2c']
          rfl
        have hok3 : StepsOk s3 := stepsOk_of s3 _ _ h3c' h3cur (by decide)
        cases er with
        | false =>
          cases hf : finalData co data s3 with
          | error e =>
            simp only [PipelineManager.run, hp, hg, hv, Bool.false_eq_true,
              if_false, hf]
            constructor
            · intro s hs
              rw [List.mem_cons, List.mem_cons, List.mem_cons,
                List.mem_singleton] at hs
              rcases hs with hs | hs | hs | hs <;> subst hs
              · exact hok1
              · exact hok2
              · exact hok3
              · exact stepsOk_errState _ _ hok3
            · intro hsucc
              simp [failRes] at hsucc
          | ok fd =>
            simp only [PipelineManager.run, hp, hg, hv, Bool.false_eq_true,
              if_false, hf]
            constructor
            · intro s hs
              rw [List.mem_cons, List.mem_cons, List.mem_singleton] at hs
              rcases hs with hs | hs | hs <;> subst hs
              · exact hok1
              · exact hok2
              · exact hok3
            · intro _ her
              exact absurd her (by decide)
        | true =>
          cases hr : PipelineManager.execute_ranking co s3 with
          | error e =>
            simp only [PipelineManager.run, hp, hg, hv, if_true, hr]
            constructor
            · intro s hs
              rw [List.mem_cons, List.mem_cons, List.mem_cons,
                List.mem_singleton] at hs
              rcases hs with hs | hs | hs | hs <;> subst hs
              · exact hok1
              · exact hok2
              · exact hok3
              · exact stepsOk_errState _ _ hok3
            · intro hsucc
              simp [failRes] at hsucc
          | ok s4 =>
            obtain ⟨h4c, h4cur, h4cand⟩ := execute_ranking_fields co s3 s4 hr
            have h4cur' : s4.current_step = PipelineStep.RANKING := by
              rw [h4cur, h3cur]
            have hok4 : StepsOk s4 := by
              by_cases hc : s3.candidates = []
              · refine stepsOk_of s4 [PipelineStep.PROFILING,
                  PipelineStep.GENERATION, PipelineStep.VALIDATION]
                  PipelineStep.RANKING ?_ h4cur' (by decide)
                rw [h4c, if_pos hc, h3c']
              · refine stepsOk_of s4 [PipelineStep.PROFILING,
                  PipelineStep.GENERATION, PipelineStep.VALIDATION,
                  PipelineStep.RANKING] PipelineStep.RANKING ?_ h4cur'
                  (by decide)
                rw [h4c, if_neg hc, h3c']
                rfl
            have hfinal : ∀ s, some s4 = some s →
                (s.candidates ≠ [] →
                  s.completed_steps = [PipelineStep.PROFILING,
                    PipelineStep.GENERATION, PipelineStep.VALIDATION,
                    PipelineStep.RANKING]) ∧
                (s.candidates = [] →
                  s.completed_steps = [PipelineStep.PROFILING,
                    PipelineStep.GENERATION, PipelineStep.VALIDATION]) := by
              intro s hs
              cases hs
              by_cases hc : s3.candidates = []
              · constructor
                · intro hne
                  rw [h4cand] at hne
                  exact absurd hc hne
                · intro _
                  rw [h4c, if_pos hc, h3c']
              · constructor
                · intro _
                  rw [h4c, if_neg hc, h3c']
                  rfl
                · intro hnil
                  rw [h4cand] at hnil
                  exact absurd hnil hc
            cases hf : finalData co data s4 with
            | error e =>
              simp only [PipelineManager.run, hp, hg, hv, if_true, hr, hf]
              constructor
              · intro s hs
                rw [List.mem_cons, List.mem_cons, List.mem_cons,
                  List.mem_cons, List.mem_singleton] at hs
                rcases hs with hs | hs | hs | hs | hs <;> subst hs
                · exact hok1
                · exact hok2
                · exact hok3
                · exact hok4
                · exact stepsOk_errState _ _ hok4
              · intro hsucc
                simp [failRes] at hsucc
            | ok fd =>
              simp only [PipelineManager.run, hp, hg, hv, if_true, hr, hf]
              constructor
              · intro s hs
                rw [List.mem_cons, List.mem_cons, List.mem_cons,
                  List.mem_singleton] at hs
                rcases hs with hs | hs | hs | hs <;> subst hs
                · exact hok1
                · exact hok2
                · exact hok3
                · exact hok4
              · intro _ _ s hs
                exact hfinal s hs

/-- Counterexample to the unqualified C9: with a coordinator whose
generator returns no transformations, the run succeeds with ranking
enabled, yet the final checkpoint's completed steps are
`[PROFILING, GENERATION, VALIDATION]` — `RANKING` is missing. -/
theorem C9_counterexample_empty_candidates :
    (PipelineManager.run coNoCands dfEmpty true).1.success = true ∧
    ((PipelineManager.run coNoCands dfEmpty true).2.map
      PipelineState.completed_steps).getLast? =
      some [PipelineStep.PROFILING, PipelineStep.GENERATION,
        PipelineStep.VALIDATION] :=
  ⟨rfl, rfl⟩

/-- Witness for `C9_run_steps_amended`: the one-candidate run succeeds
with ranking enabled, its final checkpoint is `c9FinalState`, and the
amended theorem pins its completed steps. -/
theorem C9_run_steps_amended_witness :
    (PipelineManager.run coOneCand dfEmpty true).1.success = true ∧
    (PipelineManager.run coOneCand dfEmpty true).2.getLast? =
      some c9FinalState ∧
    c9FinalState.candidates ≠ [] ∧
    c9FinalState.completed_steps = [PipelineStep.PROFILING,
      PipelineStep.GENERATION, PipelineStep.VALIDATION,
      PipelineStep.RANKING] := by
  refine ⟨rfl, rfl, fun h => List.noConfusion h, ?_⟩
  exact ((C9_run_steps_amended coOneCand dfEmpty true).2 rfl rfl
    c9FinalState rfl).1 (fun h => List.noConfusion h)

/-! ## Frame effect of the executor (C10) -/

theorem readH_append_lt (h : List DataFrame) (v : DataFrame) (i : Nat)
    (hi : i < h.length) : readH (h ++ [v]) i = readH h i := by
  unfold readH
  rw [List.getD_eq_getElem?_getD, List.getD_eq_getElem?_getD,
    List.getElem?_append_left hi]

theorem readH_set_ne (l : List DataFrame) (n i : Nat) (v : DataFrame)
    (hne : i ≠ n) : readH (writeH l n v) i = readH l i := by
  unfold readH writeH
  rw [List.getD_eq_getElem?_getD, List.getD_eq_getElem?_getD,
    List.getElem?_set_ne (fun he => hne he.symm)]

/-- Claim C10: in the heap model, `execute` leaves every pre-existing
object — in particular the input frame — unchanged, both on success and
on failure; on success the returned reference is a fresh object distinct
from the input reference, and on failure it is the input reference
itself. -/
theorem C10_execute_preserves_input (ops : ApplierOps)
    (t : Transformation) (h : List DataFrame) (r : Nat)
    (hr : r < h.length) :
    (∀ i, i < h.length →
      readH (executeH ops t h r).1 i = readH h i) ∧
    ((executeH ops t h r).2.2 = true → (executeH ops t h r).2.1 ≠ r) ∧
    ((executeH ops t h r).2.2 = false → (executeH ops t h r).2.1 = r) ∧
    readH (executeH ops t h r).1 r = readH h r := by
  have hread1 : ∀ i, i < h.length →
      readH (h ++ [readH h r]) i = readH h i :=
    fun i hi => readH_append_lt h _ i hi
  cases hF : registryApply ops t.type t
      (readH (h ++ [readH h r]) h.length) with
  | error e =>
    simp only [executeH, applyCopyH, hF]
    refine ⟨fun i hi => hread1 i hi, ?_, ?_, hread1 r hr⟩
    · intro hb
      exact absurd hb (by decide)
    · intro _
      trivial
  | ok val =>
    simp only [executeH, applyCopyH, hF]
    refine ⟨?_, ?_, ?_, ?_⟩
    · intro i hi
      rw [readH_set_ne _ _ _ _ (by omega), hread1 i hi]
    · intro _
      omega
    · intro hb
      exact absurd hb (by decide)
    · rw [readH_set_ne _ _ _ _ (by omega), hread1 r hr]

/-- Witness for `C10_execute_preserves_input` on a one-object heap with a
failing applier bundle. -/
theorem C10_execute_preserves_input_witness :
    0 < [dfWit].length ∧
    ((∀ i, i < [dfWit].length →
      readH (executeH opsFail tMeanFill [dfWit] 0).1 i =
        readH [dfWit] i) ∧
    ((executeH opsFail tMeanFill [dfWit] 0).2.2 = true →
      (executeH opsFail tMeanFill [dfWit] 0).2.1 ≠ 0) ∧
    ((executeH opsFail tMeanFill [dfWit] 0).2.2 = false →
      (executeH opsFail tMeanFill [dfWit] 0).2.1 = 0) ∧
    readH (executeH opsFail tMeanFill [dfWit] 0).1 0 =
      readH [dfWit] 0) :=
  ⟨by decide,
   C10_execute_preserves_input opsFail tMeanFill [dfWit] 0 (by decide)⟩

end DW
